import Mathlib

/-!
Verification development for the renaming core of Kapowarr
(`backend/naming.py`, with the naming-template settings from
`backend/settings.py`).

The Python code is shallowly embedded: SQLite tables become lists of
records, the filesystem becomes an explicit list of file paths and
directories, Python `None`/empty-string truthiness becomes explicit
`Option`/empty tests, and Python exceptions become an `Err` sum type
threaded through `Except`.  Paths are plain strings manipulated by
faithful translations of `posixpath`'s `basename`/`dirname`/`join`/
`splitext`.  `re.match(escape(name) + r'( \(\d+\))?$', r)` is embedded
by `pyMatchName`, including `$`'s tolerance of one trailing newline
(`\d` is modelled as the ASCII digits).
-/

/-- The exception kinds that can escape the embedded code.  `AttributeError`,
`TypeError`, `ValueError`, `KeyError` and `IndexError` model the corresponding
unhandled Python exceptions; the rest model the repository's own
`custom_exceptions` and the move primitive's failure. -/
inductive Err where
  | VolumeNotFound
  | IssueNotFound
  | AttributeError
  | TypeError
  | ValueError
  | KeyError
  | IndexError
  | InvalidSettingValue (msg : String)
  | MoveFailure
deriving DecidableEq

/-- Python truthiness of an optional integer id (`if issue_id:`):
`None` and `0` are falsy. -/
def pyTruthyNat : Option Nat → Bool
  | none => false
  | some n => n != 0

/-- `value or 'Unknown'` for an optional string field: `NULL` and the empty
string are falsy and fall back to the literal `"Unknown"`. -/
def orUnknown : Option String → String
  | none => "Unknown"
  | some s => if s = "" then "Unknown" else s

/-- Rendering of a possibly-`NULL` column inside an f-string: Python prints
`None` for `NULL`. -/
def pyOptStr : Option String → String
  | none => "None"
  | some s => s

/-- `s.startswith(pre)`. -/
def pyStartsWith (s pre : String) : Bool :=
  pre.data.isPrefixOf s.data

/-! ### Decimal rendering of naturals (Python `str(int)` / f-string) -/

/-- The decimal digit character for `d % 10`. -/
def decChar (d : Nat) : Char :=
  match d with
  | 0 => '0' | 1 => '1' | 2 => '2' | 3 => '3' | 4 => '4'
  | 5 => '5' | 6 => '6' | 7 => '7' | 8 => '8' | _ => '9'

/-- The value of a decimal digit character. -/
def decVal (c : Char) : Nat :=
  match c with
  | '0' => 0 | '1' => 1 | '2' => 2 | '3' => 3 | '4' => 4
  | '5' => 5 | '6' => 6 | '7' => 7 | '8' => 8 | _ => 9

/-- Digits of `n` (most significant first), with structural fuel; `fuel ≥ n`
suffices since the argument at least halves every step. -/
def natStrAux : Nat → Nat → List Char
  | 0, _ => []
  | fuel + 1, n => if n = 0 then [] else natStrAux fuel (n / 10) ++ [decChar (n % 10)]

/-- Canonical decimal rendering of a natural number, as Python's `str`. -/
def natStr (n : Nat) : String :=
  if n = 0 then "0" else ⟨natStrAux n n⟩

/-- Value of a decimal digit string (left fold, most significant first). -/
def digListVal (l : List Char) : Nat :=
  l.foldl (fun a c => 10 * a + decVal c) 0

/-! ### Path manipulation (`posixpath`) -/

/-- `os.path.basename`: the part after the last `/`. -/
def basename (p : String) : String :=
  ⟨(p.data.reverse.takeWhile (fun c => c != '/')).reverse⟩

/-- `os.path.dirname`: everything before the last `/`, with trailing slashes
stripped unless the result would consist of slashes only. -/
def dirname (p : String) : String :=
  let headRev := p.data.reverse.dropWhile (fun c => c != '/')
  if headRev.all (fun c => c = '/') then ⟨headRev.reverse⟩
  else ⟨(headRev.dropWhile (fun c => c = '/')).reverse⟩

/-- `posixpath.join` for two components. -/
def pjoin (a b : String) : String :=
  if b.data.head? = some '/' then b
  else if a.data = [] ∨ a.data.getLast? = some '/' then a ++ b
  else a ++ "/" ++ b

/-- `os.path.splitext` on the character list: the extension starts at the last
dot that comes after the last separator, provided some character strictly
between that separator and the dot is not itself a dot. -/
def splitextL (p : List Char) : List Char × List Char :=
  let rev := p.reverse
  let extRev := rev.takeWhile (fun c => c != '.' && c != '/')
  match rev.drop extRev.length with
  | '.' :: pre =>
      if (pre.takeWhile (fun c => c != '/')).any (fun c => c != '.') then
        (pre.reverse, '.' :: extRev.reverse)
      else (p, [])
  | _ => (p, [])

/-- `os.path.splitext` on strings, returning `(root, extension)`. -/
def splitext (p : String) : String × String :=
  ((⟨(splitextL p.data).1⟩ : String), (⟨(splitextL p.data).2⟩ : String))

/-! ### The collision-matching pattern -/

/-- The disambiguated candidate `f"{suggested_name} ({i})"`. -/
def candName (s : String) (i : Nat) : String :=
  s ++ " (" ++ natStr i ++ ")"

/-- Strip a single trailing newline (the position at which `$` may also
match in Python regular expressions). -/
def stripNL (r : List Char) : List Char :=
  if r.getLast? = some '\n' then r.dropLast else r

/-- Core of `re.match(escape(s) + r'( \(\d+\))?$', r)` after `$`'s
trailing-newline position has been resolved: `r` is `s` itself, or `s`
followed by a space and a nonempty parenthesised digit string. -/
def matchCore (s r : List Char) : Bool :=
  r == s ||
  ((s ++ [' ', '(']).isPrefixOf r && r.getLast? == some ')' &&
    !((r.drop (s.length + 2)).dropLast).isEmpty &&
    ((r.drop (s.length + 2)).dropLast).all (fun c => c.isDigit))

/-- `re.match(escape(suggested) + r'( \(\d+\))?$', name)` as a Boolean. -/
def pyMatchName (suggested name : String) : Bool :=
  matchCore suggested.data (stripNL name.data)

/-! ### Data model (the SQLite tables, as lists of records) -/

/-- A row of the `volumes` table (the columns this core reads/writes). -/
structure Volume where
  id : Nat
  comicvine_id : Option String
  title : Option String
  year : Option String
  publisher : Option String
  volume_number : Option String
  folder : String
  root_folder : Nat
deriving DecidableEq

/-- A row of the `issues` table.  `calculated_issue_number` is the sortable
numeric key (a float in the source; the claims only need its decidable
equality and order, modelled over `Int`). -/
structure Issue where
  id : Nat
  volume_id : Nat
  comicvine_id : Option String
  issue_number : Option String
  title : Option String
  date : Option String
  calculated_issue_number : Int
deriving DecidableEq

/-- A row of the `files` table. -/
structure DBFile where
  id : Nat
  filepath : String
deriving DecidableEq

/-- A row of the `root_folders` table. -/
structure RootFolder where
  id : Nat
  folder : String
deriving DecidableEq

/-- The three naming templates from the `config` table
(`Settings().get_settings()`). -/
structure Config where
  volume_folder_naming : String
  file_naming : String
  file_naming_tpb : String
deriving DecidableEq

/-- The database: the tables `naming.py` queries.  `links` is the
`issues_files` many-to-many table as `(issue_id, file_id)` pairs. -/
structure DB where
  volumes : List Volume
  issues : List Issue
  files : List DBFile
  links : List (Nat × Nat)
  root_folders : List RootFolder
  config : Config
deriving DecidableEq

/-- The filesystem: the set of present file paths and of present
directories. -/
structure FS where
  files : List String
  dirs : List String
deriving DecidableEq

/-- `os.path.isfile`. -/
def isfile (fs : FS) (p : String) : Bool :=
  fs.files.contains p

/-- `os.path.isdir`. -/
def isdir (fs : FS) (d : String) : Bool :=
  fs.dirs.contains d

/-- `os.listdir`: the base names of the files whose directory is `d`. -/
def listdir (fs : FS) (d : String) : List String :=
  (fs.files.filter (fun p => dirname p == d)).map basename

/-! ### Formatting context builder (`_get_formatting_data`) -/

/-- Lookup in the flat key→value mapping (a Python dict). -/
def getKey (m : List (String × String)) (k : String) : Option String :=
  (m.find? (fun p => p.1 == k)).map (fun p => p.2)

/-- Dict assignment `m[k] = v`: replace in place when present, append
otherwise. -/
def setKey (m : List (String × String)) (k v : String) : List (String × String) :=
  if m.any (fun p => p.1 == k) then
    m.map (fun p => if p.1 == k then (k, v) else p)
  else m ++ [(k, v)]

/-- `_get_formatting_data(volume_id, issue_id=None)`.  Mirrors the source:
the volume row is fetched (else `VolumeNotFound`); `.startswith` is called
on the raw title, so a `NULL` title raises `AttributeError`; the clean title
appends `", The"`/`", A"` to the full title; every field falls back to
`"Unknown"` when falsy; the issue block runs only when `issue_id` is truthy
(so `0` behaves like `None`) and adds the four issue keys. -/
def _get_formatting_data (db : DB) (volume_id : Nat) (issue_id : Option Nat) :
    Except Err (List (String × String)) :=
  match db.volumes.find? (fun v => v.id == volume_id) with
  | none => .error .VolumeNotFound
  | some v =>
    match v.title with
    | none => .error .AttributeError
    | some t =>
      let clean_title :=
        if pyStartsWith t "The " then t ++ ", The"
        else if pyStartsWith t "A " then t ++ ", A"
        else orUnknown (some t)
      let formatting_data :=
        [("series_name", orUnknown v.title),
         ("clean_series_name", clean_title),
         ("volume_number", orUnknown v.volume_number),
         ("comicvine_id", orUnknown v.comicvine_id),
         ("year", orUnknown v.year),
         ("publisher", orUnknown v.publisher)]
      match issue_id with
      | none => .ok formatting_data
      | some i =>
        if i != 0 then
          match db.issues.find? (fun iss => iss.id == i) with
          | none => .error .IssueNotFound
          | some iss =>
            -- dict.update with four fresh keys appends them in order
            .ok (formatting_data ++
              [("issue_comicvine_id", orUnknown iss.comicvine_id),
               ("issue_number", orUnknown iss.issue_number),
               ("issue_title", orUnknown iss.title),
               ("issue_release_date", orUnknown iss.date)])
        else .ok formatting_data

/-! ### Template parsing and rendering (`string.Formatter` / `str.format`) -/

/-- A parsed template piece: a literal character or a `\x7bfield\x7d`
reference. -/
inductive Chunk where
  | lit (c : Char)
  | field (name : String)
deriving DecidableEq

/-- Parser for `\x7bkey\x7d`-style templates, with structural fuel
(`fuel ≥ length` suffices since every step consumes a character).  Doubled
braces are literals; a field name ends at `!` or `:`; stray single braces
raise `ValueError` as in `string.Formatter().parse`. -/
def parseFmtAux : Nat → List Char → Except Err (List Chunk)
  | _, [] => .ok []
  | fuel + 1, '{' :: '{' :: rest => (parseFmtAux fuel rest).map (fun cs => .lit '{' :: cs)
  | fuel + 1, '}' :: '}' :: rest => (parseFmtAux fuel rest).map (fun cs => .lit '}' :: cs)
  | fuel + 1, '{' :: rest =>
      let fld := rest.takeWhile (fun c => c != '}')
      match rest.drop fld.length with
      | '}' :: rest2 =>
          if fld.contains '{' then .error .ValueError
          else
            (parseFmtAux fuel rest2).map
              (fun cs => .field ⟨fld.takeWhile (fun c => c != ':' && c != '!')⟩ :: cs)
      | _ => .error .ValueError
  | _ + 1, '}' :: _ => .error .ValueError
  | fuel + 1, c :: rest => (parseFmtAux fuel rest).map (fun cs => .lit c :: cs)
  | 0, _ => .error .ValueError

/-- Parse a whole template string. -/
def parseFmt (s : String) : Except Err (List Chunk) :=
  parseFmtAux (s.data.length + 1) s.data

/-- The field names referenced by a template
(`[fn for _, fn, _, _ in Formatter().parse(format) if fn is not None]`). -/
def templateKeys (s : String) : Except Err (List String) :=
  (parseFmt s).map (fun cs => cs.filterMap (fun c =>
    match c with
    | .field n => some n
    | .lit _ => none))

/-- Render parsed chunks against a context; a referenced key absent from the
context raises `KeyError` as `str.format` does. -/
def renderChunks (data : List (String × String)) : List Chunk → Except Err String
  | [] => .ok ""
  | .lit c :: rest => (renderChunks data rest).map (fun s => ⟨c :: s.data⟩)
  | .field n :: rest =>
      match getKey data n with
      | none => .error .KeyError
      | some v => (renderChunks data rest).map (fun s => v ++ s)

/-- `format.format(**formatting_data)`. -/
def renderTemplate (tmpl : String) (data : List (String × String)) : Except Err String :=
  match parseFmt tmpl with
  | .error e => .error e
  | .ok cs => renderChunks data cs

/-! ### Name generation -/

/-- `generate_volume_folder_name(volume_id)`. -/
def generate_volume_folder_name (db : DB) (volume_id : Nat) : Except Err String :=
  match _get_formatting_data db volume_id none with
  | .error e => .error e
  | .ok fd => renderTemplate db.config.volume_folder_naming fd

/-- `generate_tpb_name(volume_id)`. -/
def generate_tpb_name (db : DB) (volume_id : Nat) : Except Err String :=
  match _get_formatting_data db volume_id none with
  | .error e => .error e
  | .ok fd => renderTemplate db.config.file_naming_tpb fd

/-- `generate_issue_name(volume_id, issue_id)`. -/
def generate_issue_name (db : DB) (volume_id issue_id : Nat) : Except Err String :=
  match _get_formatting_data db volume_id (some issue_id) with
  | .error e => .error e
  | .ok fd => renderTemplate db.config.file_naming fd

/-- Stable insertion of an issue into a list sorted by
`calculated_issue_number` (ties keep their original relative order, a
deterministic model of SQLite's `ORDER BY calculated_issue_number`). -/
def insertByCalc (x : Issue) : List Issue → List Issue
  | [] => [x]
  | y :: ys =>
      if x.calculated_issue_number ≤ y.calculated_issue_number then x :: y :: ys
      else y :: insertByCalc x ys

/-- Stable sort by `calculated_issue_number`, ascending. -/
def sortByCalc : List Issue → List Issue
  | [] => []
  | x :: xs => insertByCalc x (sortByCalc xs)

/-- `generate_issue_range_name(volume_id, start, end)`.  The start-issue
lookup does `fetchone()[0]`, so an empty lookup raises `TypeError` (not
`IssueNotFound`); the two display numbers are then fetched ordered by
calculated number and tuple-unpacked (`ValueError` unless exactly two
rows), and `issue_number` is overridden with `"{start}-{end}"`. -/
def generate_issue_range_name (db : DB) (volume_id : Nat)
    (calc_start calc_end : Int) : Except Err String :=
  match db.issues.find? (fun i =>
      i.volume_id == volume_id && i.calculated_issue_number == calc_start) with
  | none => .error .TypeError
  | some i0 =>
    match _get_formatting_data db volume_id (some i0.id) with
    | .error e => .error e
    | .ok fd =>
      let rows := sortByCalc (db.issues.filter (fun i =>
        i.volume_id == volume_id &&
        (i.calculated_issue_number == calc_start ||
         i.calculated_issue_number == calc_end)))
      match rows with
      | [a, b] =>
          renderTemplate db.config.file_naming
            (setKey fd "issue_number" (pyOptStr a.issue_number ++ "-" ++ pyOptStr b.issue_number))
      | _ => .error .ValueError

/-! ### Checking formats (`check_format`) -/

/-- The substitution keys permitted in volume-level templates. -/
def formatting_keys : List String :=
  ["series_name", "clean_series_name", "volume_number", "comicvine_id",
   "year", "publisher"]

/-- The substitution keys permitted in the per-issue template. -/
def issue_formatting_keys : List String :=
  formatting_keys ++
  ["issue_comicvine_id", "issue_number", "issue_title", "issue_release_date"]

/-- Substring test (`sub in s`). -/
def containsSub (s sub : String) : Bool :=
  s.data.tails.any (fun t => sub.data.isPrefixOf t)

/-- `check_format(format, type)`.  Faithful to the source: for the two
per-file kinds it rejects a format containing `'/'` or the two-character
sequence `'\\'` (the source's `r'\\'` raw string is two backslashes, so a
single backslash is not caught), then every referenced key must belong to
the kind's vocabulary. -/
def check_format (format type_ : String) : Except Err Unit :=
  match templateKeys format with
  | .error e => .error e
  | .ok keys =>
    let sepFound :=
      (type_ == "file_naming" || type_ == "file_naming_tpb") &&
      (containsSub format "/" || containsSub format "\\\\")
    if sepFound then .error (.InvalidSettingValue "Path seperator found")
    else
      let naming_keys :=
        if type_ == "file_naming" then issue_formatting_keys
        else if type_ == "file_naming_tpb" then formatting_keys
        else formatting_keys
      match keys.find? (fun k => !naming_keys.contains k) with
      | some k => .error (.InvalidSettingValue ("\x7b" ++ k ++ "\x7d"))
      | none => .ok ()

/-! ### Collision resolution (`same_name_indexing`) -/

/-- A planned rename: a `{before, after}` pair. -/
structure RenameEntry where
  before : String
  after : String
deriving DecidableEq

/-- The planned-entries part of the taken set: extension-stripped base names
of planned `after` paths matching the suggested-name pattern. -/
def takenFromPlan (suggested : String) (planned : List RenameEntry) : List String :=
  (planned.map (fun r => (splitext (basename r.after)).1)).filter
    (fun r => pyMatchName suggested r)

/-- The destination-folder part of the taken set: extension-stripped names
in the folder listing matching the pattern, excluding the current file's own
extension-stripped base name; empty when the folder does not exist. -/
def takenFromFolder (fs : FS) (suggested current_name folder : String) : List String :=
  if isdir fs folder then
    let basename_file := (splitext (basename current_name)).1
    ((listdir fs folder).map (fun f => (splitext f).1)).filter
      (fun f => !(f == basename_file) && pyMatchName suggested f)
  else []

/-- The `while True` index search: the first `i ≥ start` whose candidate is
not taken, with structural fuel (`taken.length + 1` suffices since the
candidates are pairwise distinct). -/
def firstFree (s : String) (taken : List String) : Nat → Nat → Nat
  | 0, i => i
  | fuel + 1, i => if candName s i ∈ taken then firstFree s taken fuel (i + 1) else i

/-- The complete `same_names` taken list of `same_name_indexing`. -/
def sameNamesOf (fs : FS) (suggested_name current_name folder : String)
    (planned_names : List RenameEntry) : List String :=
  takenFromPlan suggested_name planned_names ++
  takenFromFolder fs suggested_name current_name folder

/-- `same_name_indexing(suggested_name, current_name, folder, planned_names)`:
build the taken list from the plan and (when it exists) the destination
folder; if it is nonempty and contains the plain suggested name, append
`" (N)"` for the first free `N ≥ 1`. -/
def same_name_indexing (fs : FS) (suggested_name current_name folder : String)
    (planned_names : List RenameEntry) : String :=
  let same_names := sameNamesOf fs suggested_name current_name folder planned_names
  if same_names.isEmpty then suggested_name
  else if suggested_name ∈ same_names then
    candName suggested_name (firstFree suggested_name same_names (same_names.length + 1) 1)
  else suggested_name

/-! ### The rename planner (`preview_mass_rename`) -/

/-- The issues a file covers, ordered by calculated issue number ascending
(the `issues INNER JOIN issues_files ... ORDER BY calculated_issue_number`
query; note it is not filtered by volume). -/
def coveredIssues (db : DB) (file_id : Nat) : List Issue :=
  sortByCalc (db.issues.filter (fun i =>
    db.links.any (fun l => l.1 == i.id && l.2 == file_id)))

/-- `SELECT COUNT(*) FROM issues WHERE volume_id = ?`. -/
def issuesInVolume (db : DB) (volume_id : Nat) : Nat :=
  (db.issues.filter (fun i => i.volume_id == volume_id)).length

/-- The files linked (via `issues_files`) to any issue of the volume, in
table order (`SELECT DISTINCT f.id, f.filepath ...`). -/
def filesOfVolume (db : DB) (volume_id : Nat) : List DBFile :=
  db.files.filter (fun f => db.links.any (fun l =>
    l.2 == f.id && db.issues.any (fun i => i.id == l.1 && i.volume_id == volume_id)))

/-- The files linked to one issue. -/
def filesOfIssue (db : DB) (issue_id : Nat) : List DBFile :=
  db.files.filter (fun f => db.links.any (fun l => l.1 == issue_id && l.2 == f.id))

/-- The root folder joined through the volume row
(`SELECT rf.folder FROM root_folders rf JOIN volumes v ...`). -/
def rootFolderOf (db : DB) (volume_id : Nat) : Option String :=
  (db.volumes.find? (fun v => v.id == volume_id)).bind (fun v =>
    (db.root_folders.find? (fun r => r.id == v.root_folder)).map (fun r => r.folder))

/-- The per-file classification of `preview_mass_rename`: one covered issue
gives the single-issue name; more than one gives the TPB name when the count
equals the volume's issue count and the range name otherwise; `issues[0]` on
an empty cover raises `IndexError`. -/
def suggestedNameFor (db : DB) (volume_id niv : Nat) (file_id : Nat) : Except Err String :=
  match coveredIssues db file_id with
  | [] => .error .IndexError
  | i0 :: rest =>
    if (i0 :: rest).length > 1 then
      if (i0 :: rest).length = niv then generate_tpb_name db volume_id
      else
        generate_issue_range_name db volume_id
          i0.calculated_issue_number ((i0 :: rest).getLast (by simp)).calculated_issue_number
    else generate_issue_name db volume_id i0.id

/-- The `for file in file_infos` loop of `preview_mass_rename`: skip files
not on disk, classify, resolve collisions against the entries accumulated so
far, re-attach the original extension, and record the pair only when the
path changes. -/
def previewLoop (db : DB) (fs : FS) (volume_id niv : Nat) (folder : String) :
    List DBFile → List RenameEntry → Except Err (List RenameEntry)
  | [], acc => .ok acc
  | f :: rest, acc =>
    if isfile fs f.filepath then
      match suggestedNameFor db volume_id niv f.id with
      | .error e => .error e
      | .ok sug =>
        let sug2 := same_name_indexing fs sug f.filepath folder acc
        let target := pjoin folder (sug2 ++ (splitext f.filepath).2)
        previewLoop db fs volume_id niv folder rest
          (if f.filepath ≠ target then acc ++ [⟨f.filepath, target⟩] else acc)
    else previewLoop db fs volume_id niv folder rest acc

/-- `preview_mass_rename(volume_id, issue_id=None)`.  Whole-volume mode
(tested with `is None`, so `issue_id = 0` is single-issue mode here) targets
`root_folder / volume folder name` (the root-folder `fetchone()[0]` raises
`TypeError` when the join is empty); single-issue mode targets the directory
of the first linked file (`file_infos[0]` raises `IndexError` when there is
none). -/
def preview_mass_rename (db : DB) (fs : FS) (volume_id : Nat)
    (issue_id : Option Nat) : Except Err (List RenameEntry) :=
  match issue_id with
  | none =>
    match rootFolderOf db volume_id with
    | none => .error .TypeError
    | some root_folder =>
      match generate_volume_folder_name db volume_id with
      | .error e => .error e
      | .ok vname =>
        previewLoop db fs volume_id (issuesInVolume db volume_id)
          (pjoin root_folder vname) (filesOfVolume db volume_id) []
  | some iid =>
    match filesOfIssue db iid with
    | [] => .error .IndexError
    | f0 :: fs' =>
      previewLoop db fs volume_id (issuesInVolume db volume_id)
        (dirname f0.filepath) (f0 :: fs') []

/-! ### The rename applier (`mass_rename`) -/

/-- The combined system state an apply run mutates. -/
structure SysState where
  db : DB
  fs : FS
deriving DecidableEq

/-- `UPDATE volumes SET folder = ? WHERE id = ?`. -/
def updVolumeFolder (db : DB) (volume_id : Nat) (fol : String) : DB :=
  { db with volumes := db.volumes.map (fun v =>
      if v.id = volume_id then { v with folder := fol } else v) }

/-- `UPDATE files SET filepath = ? WHERE filepath = ?` (matched by path). -/
def updFilepath (db : DB) (before after : String) : DB :=
  { db with files := db.files.map (fun f =>
      if f.filepath = before then { f with filepath := after } else f) }

/-- Modelled from the spec: the effect on the filesystem of the external
move primitive (`backend.files.rename_file`, not part of this core), which
"performs the OS-level move": the source path disappears, the destination
path (and its directory) exists afterwards, replacing any previous file
there. -/
def fsMove (fs : FS) (b a : String) : FS :=
  { files := ((fs.files.erase b).filter (fun p => p ≠ a)) ++ [a],
    dirs := if dirname a ∈ fs.dirs then fs.dirs else fs.dirs ++ [dirname a] }

/-- Modelled from the spec: the external move primitive
(`backend.files.rename_file`) returns "success|failure"; failure is modelled
by a set of source paths on which the move fails. -/
def rename_file (failSet : List String) (fs : FS) (b a : String) : Except Err FS :=
  if b ∈ failSet then .error .MoveFailure else .ok (fsMove fs b a)

/-- The `for r in renames` loop of `mass_rename`: each entry is moved and its
file row repointed, in plan order; a move failure propagates immediately,
leaving earlier updates committed and later entries untouched. -/
def applyRenames (failSet : List String) :
    List RenameEntry → SysState → SysState × Option Err
  | [], st => (st, none)
  | r :: rs, st =>
    match rename_file failSet st.fs r.before r.after with
    | .error e => (st, some e)
    | .ok fs' => applyRenames failSet rs ⟨updFilepath st.db r.before r.after, fs'⟩

/-- The same loop with no failures, used to state what a partial run has
committed. -/
def applyAll : List RenameEntry → SysState → SysState
  | [], st => st
  | r :: rs, st => applyAll rs ⟨updFilepath st.db r.before r.after, fsMove st.fs r.before r.after⟩

/-- The `if not issue_id and renames:` volume-folder update of
`mass_rename`: when `issue_id` is falsy (`None` or `0`) and the plan is
nonempty, persist the volume folder as the directory of the first `after`. -/
def volFolderStep (st : SysState) (volume_id : Nat) (issue_id : Option Nat)
    (renames : List RenameEntry) : SysState :=
  match renames with
  | [] => st
  | r0 :: _ =>
      if pyTruthyNat issue_id then st
      else ⟨updVolumeFolder st.db volume_id (dirname r0.after), st.fs⟩

/-- `mass_rename(volume_id, issue_id=None)`: compute the plan, run the
volume-folder update, then apply the entries in order. -/
def mass_rename (failSet : List String) (st : SysState) (volume_id : Nat)
    (issue_id : Option Nat) : SysState × Option Err :=
  match preview_mass_rename st.db st.fs volume_id issue_id with
  | .error e => (st, some e)
  | .ok renames => applyRenames failSet renames (volFolderStep st volume_id issue_id renames)

deriving instance DecidableEq for Except

/-! ### Derived state descriptions used for statements about apply runs -/

/-- The cumulative effect of a plan's `UPDATE files ... WHERE filepath = ?`
statements on one stored path, in plan order. -/
def chainUpdPath : List RenameEntry → String → String
  | [], p => p
  | r :: rs, p => chainUpdPath rs (if p = r.before then r.after else p)

/-- The cumulative effect of a plan's moves on the filesystem. -/
def moveAll : List RenameEntry → FS → FS
  | [], fs => fs
  | r :: rs, fs => moveAll rs (fsMove fs r.before r.after)

/-! ### The cleanliness conditions under which a rename run is idempotent -/

/-- A destination folder that round-trips through `pjoin`/`dirname`:
nonempty and without a trailing separator. -/
def goodFolder (F : String) : Bool :=
  !F.data.isEmpty && !(F.data.getLast? == some '/')

/-- Per-file cleanliness at one step of the planning loop: the name
generation succeeds, collision resolution leaves the suggested name
unchanged (no disambiguation suffix), re-splitting the suggested name plus
the original extension gives them back, and the joined component carries no
separator. -/
def fileOk (db : DB) (fs : FS) (vid niv : Nat) (F : String) (f : DBFile)
    (acc : List RenameEntry) : Bool :=
  match suggestedNameFor db vid niv f.id with
  | .error _ => false
  | .ok s =>
      let ext := (splitext f.filepath).2
      decide (same_name_indexing fs s f.filepath F acc = s) &&
      decide (splitext (s ++ ext) = (s, ext)) &&
      !(s ++ ext).data.contains '/'

/-- The planning loop's traversal, checking `fileOk` at every on-disk file
(with the same accumulator the loop would carry). -/
def cleanPlan (db : DB) (fs : FS) (vid niv : Nat) (F : String) :
    List DBFile → List RenameEntry → Bool
  | [], _ => true
  | f :: rest, acc =>
    if isfile fs f.filepath then
      match suggestedNameFor db vid niv f.id with
      | .error _ => false
      | .ok s =>
        let target := pjoin F (s ++ (splitext f.filepath).2)
        fileOk db fs vid niv F f acc &&
        cleanPlan db fs vid niv F rest
          (if f.filepath ≠ target then acc ++ [⟨f.filepath, target⟩] else acc)
    else cleanPlan db fs vid niv F rest acc

/-- Cleanliness of a whole planning run: the destination folder resolves,
is well formed, and every on-disk candidate file is clean. -/
def cleanRun (db : DB) (fs : FS) (vid : Nat) (iid : Option Nat) : Bool :=
  match iid with
  | none =>
    match rootFolderOf db vid with
    | none => false
    | some rf =>
      match generate_volume_folder_name db vid with
      | .error _ => false
      | .ok vname =>
        goodFolder (pjoin rf vname) &&
        cleanPlan db fs vid (issuesInVolume db vid) (pjoin rf vname)
          (filesOfVolume db vid) []
  | some i =>
    match filesOfIssue db i with
    | [] => false
    | f0 :: rest =>
      goodFolder (dirname f0.filepath) &&
      cleanPlan db fs vid (issuesInVolume db vid) (dirname f0.filepath)
        (f0 :: rest) []

/-! ### Spec-side predicates (stated from the specification's words, for
comparison with the code's behaviour) -/

/-- The shape the collision pattern actually accepts (proved below): the
suggested name itself, or the suggested name followed by `" (d)"` for a
nonempty digit string `d`, in both cases up to one trailing newline. -/
def matchesTakenPattern (s x : String) : Prop :=
  stripNL x.data = s.data ∨
  ∃ d : List Char, d ≠ [] ∧ (∀ c ∈ d, c.isDigit = true) ∧
    stripNL x.data = s.data ++ ' ' :: '(' :: (d ++ [')'])

/-- The taken-name shape in the spec's words: the suggested name itself, or
the suggested name followed by `" (N)"` for a positive integer `N`. -/
def specTakenForm (s x : String) : Prop :=
  x = s ∨ ∃ N : Nat, 0 < N ∧ x = candName s N

/-! ### Concrete states used by the claims' witnesses and counterexamples -/

/-- A template configuration naming files after the issue title. -/
def cfgTitle : Config := ⟨"{series_name}", "{issue_title}", "{series_name} TPB"⟩

/-- One volume per leading-article case. -/
def dbArticle : DB :=
  ⟨[⟨1, some "4050", some "The Amazing Spider-Man", some "1963", some "Marvel", some "1", "/r/T", 1⟩,
    ⟨2, some "4051", some "A History", some "1990", some "P", some "1", "/r/H", 1⟩,
    ⟨3, some "4052", some "Batman", some "1940", some "DC", some "1", "/r/B", 1⟩],
   [], [], [], [⟨1, "/r"⟩], cfgTitle⟩

/-- A volume whose `title` column is `NULL`. -/
def dbNullTitle : DB :=
  ⟨[⟨1, none, none, none, none, none, "/r/T", 1⟩], [], [], [], [⟨1, "/r"⟩], cfgTitle⟩

/-- A volume whose text fields are all present but empty. -/
def dbEmptyFields : DB :=
  ⟨[⟨1, some "", some "", some "", some "", some "", "/r/T", 1⟩], [], [], [], [⟨1, "/r"⟩], cfgTitle⟩

/-- A five-issue volume with one file covering issues 1–2 and one covering
all five; `file_naming` renders just the issue number. -/
def dbRange : DB :=
  ⟨[⟨1, some "4", some "T", some "2020", some "P", some "1", "/r/T", 1⟩],
   [⟨11, 1, some "i1", some "1", some "t1", some "d1", 1⟩,
    ⟨12, 1, some "i2", some "2", some "t2", some "d2", 2⟩,
    ⟨13, 1, some "i3", some "3", some "t3", some "d3", 3⟩,
    ⟨14, 1, some "i4", some "4", some "t4", some "d4", 4⟩,
    ⟨15, 1, some "i5", some "5", some "t5", some "d5", 5⟩],
   [⟨21, "/r/T/f12.cbz"⟩, ⟨22, "/r/T/all.cbz"⟩],
   [(11, 21), (12, 21), (11, 22), (12, 22), (13, 22), (14, 22), (15, 22)],
   [⟨1, "/r"⟩], ⟨"{series_name}", "{issue_number}", "TPB NAME"⟩⟩

/-- Two files whose current and generated names cross: the file at
`Foo.cbz` is to be called `Bar`, the file at `Baz.cbz` is to be called
`Foo`. -/
def dbSwap : DB :=
  ⟨[⟨1, some "T", some "T", some "2020", some "P", some "1", "/r/T", 1⟩],
   [⟨11, 1, some "i1", some "1", some "Bar", some "d1", 1⟩,
    ⟨12, 1, some "i2", some "2", some "Foo", some "d2", 2⟩],
   [⟨21, "/r/T/Foo.cbz"⟩, ⟨22, "/r/T/Baz.cbz"⟩],
   [(11, 21), (12, 22)],
   [⟨1, "/r"⟩], cfgTitle⟩

/-- The filesystem matching `dbSwap`. -/
def fsSwap : FS := ⟨["/r/T/Foo.cbz", "/r/T/Baz.cbz"], ["/r", "/r/T"]⟩

/-- Three files renaming to three fresh names (a clean run). -/
def dbTriple : DB :=
  ⟨[⟨1, some "T", some "T", some "2020", some "P", some "1", "/r/T", 1⟩],
   [⟨11, 1, some "i1", some "1", some "A1", some "d1", 1⟩,
    ⟨12, 1, some "i2", some "2", some "A2", some "d2", 2⟩,
    ⟨13, 1, some "i3", some "3", some "A3", some "d3", 3⟩],
   [⟨21, "/r/T/x1.cbz"⟩, ⟨22, "/r/T/x2.cbz"⟩, ⟨23, "/r/T/x3.cbz"⟩],
   [(11, 21), (12, 22), (13, 23)],
   [⟨1, "/r"⟩], cfgTitle⟩

/-- The filesystem matching `dbTriple`. -/
def fsTriple : FS := ⟨["/r/T/x1.cbz", "/r/T/x2.cbz", "/r/T/x3.cbz"], ["/r", "/r/T"]⟩

/-- An issue with id `0` linked to one file; `file_naming` uses volume keys
only, so both planning modes succeed. -/
def dbZero : DB :=
  ⟨[⟨1, some "4", some "T", some "2020", some "P", some "1", "/orig", 1⟩],
   [⟨0, 1, some "i1", some "1", some "t1", some "d1", 1⟩],
   [⟨21, "/old/f.cbz"⟩],
   [(0, 21)],
   [⟨1, "/r"⟩], ⟨"V", "{series_name} X", "TPB"⟩⟩

/-- The filesystem matching `dbZero`. -/
def fsZero : FS := ⟨["/old/f.cbz"], ["/old", "/r"]⟩

/-- A destination folder already holding `Foo.cbz` and `Foo (0).cbz`. -/
def fsFoo : FS := ⟨["/d/Foo.cbz"], ["/d"]⟩

/-- A destination folder holding only `Foo (0).cbz`. -/
def fsFooZero : FS := ⟨["/d/Foo (0).cbz"], ["/d"]⟩

/-! ### Properties of the decimal rendering -/

theorem string_eq_of_data_eq {a b : String} (h : a.data = b.data) : a = b := by
  cases a; cases b; exact congrArg String.mk h

theorem decVal_decChar (d : Nat) (h : d < 10) : decVal (decChar d) = d := by
  interval_cases d <;> rfl

theorem natStrAux_foldl : ∀ (fuel n acc : Nat), n ≤ fuel →
    List.foldl (fun a c => 10 * a + decVal c) acc (natStrAux fuel n) =
      acc * 10 ^ (natStrAux fuel n).length + n
  | 0, n, acc, h => by
      have hn : n = 0 := Nat.le_zero.mp h
      subst hn; simp [natStrAux]
  | fuel + 1, n, acc, h => by
      by_cases hn : n = 0
      · subst hn; simp [natStrAux]
      · have hdiv : n / 10 ≤ fuel := by
          have h1 : n / 10 < n := Nat.div_lt_self (Nat.pos_of_ne_zero hn) (by norm_num)
          omega
        have ih := natStrAux_foldl fuel (n / 10) acc hdiv
        rw [natStrAux, if_neg hn, List.foldl_append, ih]
        simp only [List.foldl_cons, List.foldl_nil, List.length_append, List.length_cons,
          List.length_nil]
        rw [decVal_decChar (n % 10) (Nat.mod_lt n (by norm_num))]
        have hmod : 10 * (n / 10) + n % 10 = n := Nat.div_add_mod n 10
        generalize (natStrAux fuel (n / 10)).length = L
        conv_rhs => rw [← hmod]
        ring

theorem natStr_val (n : Nat) : digListVal (natStr n).data = n := by
  by_cases hn : n = 0
  · subst hn; rfl
  · rw [natStr, if_neg hn]
    show List.foldl _ 0 (natStrAux n n) = n
    rw [natStrAux_foldl n n 0 le_rfl]
    simp

theorem natStr_inj (m n : Nat) (h : natStr m = natStr n) : m = n := by
  have h2 := congrArg (fun s => digListVal s.data) h
  simpa [natStr_val] using h2

theorem candName_data (s : String) (i : Nat) :
    (candName s i).data = (s.data ++ ' ' :: '(' :: (natStr i).data) ++ [')'] := by
  simp [candName, String.data_append]

theorem candName_inj (s : String) (i j : Nat) (h : candName s i = candName s j) : i = j := by
  have hd := congrArg String.data h
  rw [candName_data, candName_data] at hd
  have h1 := List.append_cancel_right hd
  have h2 := List.append_cancel_left h1
  have h3 : (natStr i).data = (natStr j).data := by simpa using h2
  exact natStr_inj i j (string_eq_of_data_eq h3)

/-! ### The index search finds the least free index -/

theorem exists_candFree (s : String) (taken : List String) :
    ∃ i, 1 ≤ i ∧ i ≤ taken.length + 1 ∧ candName s i ∉ taken := by
  by_contra hcon
  push_neg at hcon
  have hinj : Function.Injective (fun k => candName s (k + 1)) := by
    intro a b hab
    have := candName_inj s (a + 1) (b + 1) hab
    omega
  have hsub : (List.range (taken.length + 1)).map (fun k => candName s (k + 1)) ⊆ taken := by
    intro x hx
    simp only [List.mem_map, List.mem_range] at hx
    obtain ⟨k, hk, rfl⟩ := hx
    exact hcon (k + 1) (by omega) (by omega)
  have hnd : ((List.range (taken.length + 1)).map (fun k => candName s (k + 1))).Nodup :=
    (List.nodup_range (taken.length + 1)).map hinj
  have hlen := (hnd.subperm hsub).length_le
  simp only [List.length_map, List.length_range] at hlen
  omega

theorem firstFree_spec (s : String) (taken : List String) :
    ∀ (fuel i : Nat), (∃ j, i ≤ j ∧ j < i + fuel ∧ candName s j ∉ taken) →
      candName s (firstFree s taken fuel i) ∉ taken ∧
      i ≤ firstFree s taken fuel i ∧
      ∀ m, i ≤ m → m < firstFree s taken fuel i → candName s m ∈ taken
  | 0, i, h => by
      obtain ⟨j, h1, h2, _⟩ := h
      omega
  | fuel + 1, i, h => by
      rw [firstFree]
      by_cases hm : candName s i ∈ taken
      · rw [if_pos hm]
        have hex : ∃ j, i + 1 ≤ j ∧ j < (i + 1) + fuel ∧ candName s j ∉ taken := by
          obtain ⟨j, h1, h2, h3⟩ := h
          have hji : j ≠ i := fun hji => h3 (hji ▸ hm)
          exact ⟨j, by omega, by omega, h3⟩
        obtain ⟨hfree, hge, hmin⟩ := firstFree_spec s taken fuel (i + 1) hex
        refine ⟨hfree, by omega, fun m hm1 hm2 => ?_⟩
        rcases Nat.eq_or_lt_of_le hm1 with rfl | hlt
        · exact hm
        · exact hmin m (by omega) hm2
      · rw [if_neg hm]
        exact ⟨hm, le_rfl, fun m h1 h2 => absurd (lt_of_le_of_lt h1 h2) (lt_irrefl i)⟩

/-- When the suggested name is not in the computed taken list,
`same_name_indexing` returns it unchanged. -/
theorem same_name_indexing_eq_of_not_mem (fs : FS) (sug cur folder : String)
    (planned : List RenameEntry)
    (h : sug ∉ sameNamesOf fs sug cur folder planned) :
    same_name_indexing fs sug cur folder planned = sug := by
  rw [same_name_indexing]
  by_cases he : (sameNamesOf fs sug cur folder planned).isEmpty
  · simp only [he, if_true]
  · simp only [he, if_false]
    split <;> simp_all

/-- C3: given the computed taken set, the collision resolver returns the
suggested name unchanged when it is not taken, and otherwise returns
`"{suggestedName} (N)"` for the smallest positive integer `N` whose
candidate is not in the taken set. -/
theorem claim_C3_collision_resolution (fs : FS) (sug cur folder : String)
    (planned : List RenameEntry) :
    (sug ∉ sameNamesOf fs sug cur folder planned →
      same_name_indexing fs sug cur folder planned = sug) ∧
    (sug ∈ sameNamesOf fs sug cur folder planned →
      ∃ N, 0 < N ∧
        same_name_indexing fs sug cur folder planned = candName sug N ∧
        candName sug N ∉ sameNamesOf fs sug cur folder planned ∧
        ∀ m, 0 < m → m < N → candName sug m ∈ sameNamesOf fs sug cur folder planned) := by
  constructor
  · exact same_name_indexing_eq_of_not_mem fs sug cur folder planned
  · intro h
    have hne : (sameNamesOf fs sug cur folder planned).isEmpty = false := by
      cases hl : sameNamesOf fs sug cur folder planned with
      | nil => rw [hl] at h; simp at h
      | cons a t => rfl
    rw [same_name_indexing]
    simp only [hne, if_false]
    rw [if_pos h]
    have hex : ∃ j, 1 ≤ j ∧
        j < 1 + ((sameNamesOf fs sug cur folder planned).length + 1) ∧
        candName sug j ∉ sameNamesOf fs sug cur folder planned := by
      obtain ⟨i, h1, h2, h3⟩ := exists_candFree sug (sameNamesOf fs sug cur folder planned)
      exact ⟨i, h1, by omega, h3⟩
    obtain ⟨hfree, hge, hmin⟩ := firstFree_spec sug (sameNamesOf fs sug cur folder planned)
      ((sameNamesOf fs sug cur folder planned).length + 1) 1 hex
    exact ⟨_, by omega, rfl, hfree, fun m h1 h2 => hmin m h1 h2⟩

/-- Witness for C3 at concrete inputs: with `Foo.cbz` present in the
destination folder and a planned entry taking `Foo`, a second candidate
`Foo` resolves to `Foo (1)` and a third to `Foo (2)`; an untaken name is
returned unchanged. -/
theorem claim_C3_collision_resolution_witness :
    ("Foo" ∈ sameNamesOf fsFoo "Foo" "/d/c.cbz" "/d" [⟨"/x/a.cbz", "/d/Foo.cbz"⟩]) ∧
    (∃ N, 0 < N ∧
      same_name_indexing fsFoo "Foo" "/d/c.cbz" "/d" [⟨"/x/a.cbz", "/d/Foo.cbz"⟩] =
        candName "Foo" N ∧
      candName "Foo" N ∉ sameNamesOf fsFoo "Foo" "/d/c.cbz" "/d" [⟨"/x/a.cbz", "/d/Foo.cbz"⟩] ∧
      ∀ m, 0 < m → m < N →
        candName "Foo" m ∈ sameNamesOf fsFoo "Foo" "/d/c.cbz" "/d" [⟨"/x/a.cbz", "/d/Foo.cbz"⟩]) ∧
    same_name_indexing fsFoo "Foo" "/d/c.cbz" "/d" [⟨"/x/a.cbz", "/d/Foo.cbz"⟩] = "Foo (1)" ∧
    same_name_indexing fsFoo "Foo" "/d/c.cbz" "/d"
      [⟨"/x/a.cbz", "/d/Foo.cbz"⟩, ⟨"/x/b.cbz", "/d/Foo (1).cbz"⟩] = "Foo (2)" ∧
    ("Bar" ∉ sameNamesOf fsFoo "Bar" "/d/c.cbz" "/d" []) ∧
    same_name_indexing fsFoo "Bar" "/d/c.cbz" "/d" [] = "Bar" := by
  refine ⟨by decide,
    (claim_C3_collision_resolution fsFoo "Foo" "/d/c.cbz" "/d"
      [⟨"/x/a.cbz", "/d/Foo.cbz"⟩]).2 (by decide),
    by decide, by decide, by decide,
    (claim_C3_collision_resolution fsFoo "Bar" "/d/c.cbz" "/d" []).1 (by decide)⟩

/-! ### What the collision pattern accepts -/

theorem matchCore_iff (s r : List Char) :
    matchCore s r = true ↔
      (r = s ∨ ∃ d : List Char, d ≠ [] ∧ (∀ c ∈ d, c.isDigit = true) ∧
        r = s ++ ' ' :: '(' :: (d ++ [')'])) := by
  constructor
  · intro h
    rw [matchCore] at h
    simp only [Bool.or_eq_true, Bool.and_eq_true] at h
    rcases h with h1 | ⟨⟨⟨hpre, hlast⟩, hne⟩, hdig⟩
    · left; exact beq_iff_eq.mp h1
    · right
      obtain ⟨t, ht⟩ := List.isPrefixOf_iff_prefix.mp hpre
      have hdrop : r.drop (s.length + 2) = t := by
        rw [← ht]; exact List.drop_left' (by simp)
      rw [hdrop] at hne hdig
      have hdl : t.dropLast ≠ [] := by simpa [List.isEmpty_iff] using hne
      have htne : t ≠ [] := by
        intro h0; rw [h0] at hdl; simp at hdl
      have hlast2 : r.getLast? = some ')' := beq_iff_eq.mp hlast
      have hlt : t.getLast? = some ')' := by
        rw [← ht] at hlast2
        rwa [List.getLast?_append_of_ne_nil _ htne] at hlast2
      have hgl : t.getLast htne = ')' := by
        rwa [List.getLast?_eq_getLast t htne, Option.some_inj] at hlt
      have ht2 : t = t.dropLast ++ [')'] := by
        conv_lhs => rw [← List.dropLast_append_getLast htne]
        rw [hgl]
      refine ⟨t.dropLast, hdl, ?_, ?_⟩
      · intro c hc
        exact List.all_eq_true.mp hdig c hc
      · rw [← ht, ht2]; simp
  · intro h
    rcases h with rfl | ⟨d, hdne, hdig, rfl⟩
    · simp [matchCore]
    · rw [matchCore]
      have hshape : s ++ ' ' :: '(' :: (d ++ [')']) = (s ++ [' ', '(']) ++ (d ++ [')']) := by
        simp
      have hpre : (s ++ [' ', '(']).isPrefixOf (s ++ ' ' :: '(' :: (d ++ [')'])) = true := by
        apply List.isPrefixOf_iff_prefix.mpr
        exact ⟨d ++ [')'], by rw [hshape]⟩
      have hdrop : (s ++ ' ' :: '(' :: (d ++ [')'])).drop (s.length + 2) = d ++ [')'] := by
        rw [hshape]; exact List.drop_left' (by simp)
      have hlast : (s ++ ' ' :: '(' :: (d ++ [')'])).getLast? = some ')' := by
        rw [hshape, ← List.append_assoc]
        exact List.getLast?_concat _
      simp only [hpre, hdrop, hlast, List.dropLast_concat, Bool.or_eq_true, Bool.and_eq_true,
        beq_self_eq_true, true_and, and_true]
      right
      refine ⟨?_, ?_⟩
      · simpa [List.isEmpty_iff] using hdne
      · exact List.all_eq_true.mpr hdig

theorem pyMatchName_iff (s x : String) :
    pyMatchName s x = true ↔ matchesTakenPattern s x := by
  rw [pyMatchName, matchCore_iff, matchesTakenPattern]

theorem mem_takenFromPlan (sug : String) (planned : List RenameEntry) (x : String) :
    x ∈ takenFromPlan sug planned ↔
      (pyMatchName sug x = true ∧ ∃ r ∈ planned, x = (splitext (basename r.after)).1) := by
  simp only [takenFromPlan, List.mem_filter, List.mem_map]
  constructor
  · rintro ⟨⟨r, hr, rfl⟩, hm⟩
    exact ⟨hm, r, hr, rfl⟩
  · rintro ⟨hm, r, hr, rfl⟩
    exact ⟨⟨r, hr, rfl⟩, hm⟩

theorem mem_takenFromFolder (fs : FS) (sug cur folder x : String) :
    x ∈ takenFromFolder fs sug cur folder ↔
      (isdir fs folder = true ∧ x ≠ (splitext (basename cur)).1 ∧
       pyMatchName sug x = true ∧ ∃ f ∈ listdir fs folder, x = (splitext f).1) := by
  rw [takenFromFolder]
  by_cases hd : isdir fs folder
  · simp only [hd, if_true, List.mem_filter, List.mem_map, Bool.and_eq_true,
      Bool.not_eq_true', beq_eq_false_iff_ne]
    constructor
    · rintro ⟨⟨f, hf, rfl⟩, hne, hm⟩
      exact ⟨trivial, hne, hm, f, hf, rfl⟩
    · rintro ⟨_, hne, hm, f, hf, rfl⟩
      exact ⟨⟨f, hf, rfl⟩, hne, hm⟩
  · simp only [Bool.not_eq_true] at hd
    simp [hd]

/-- C4 (amended): the taken set contains exactly the extension-stripped base
names — from planned `after` paths, and from the folder listing when the
folder exists, excluding the current file's own stripped base name — that
match the anchored pattern: equal to the suggested name, or to the suggested
name followed by `" (d)"` for a nonempty digit string `d` (so `d` may be
`"0"` or carry leading zeros), up to one trailing newline.  In particular
`"Foo (2) Bar"` is never taken for `"Foo"`, and a name equal to the current
file's own base name is never taken via the folder listing. -/
theorem claim_C4_taken_set (fs : FS) (sug cur folder x : String)
    (planned : List RenameEntry) :
    x ∈ sameNamesOf fs sug cur folder planned ↔
      (matchesTakenPattern sug x ∧
        ((∃ r ∈ planned, x = (splitext (basename r.after)).1) ∨
         (isdir fs folder = true ∧ x ≠ (splitext (basename cur)).1 ∧
          ∃ f ∈ listdir fs folder, x = (splitext f).1))) := by
  rw [sameNamesOf, List.mem_append, mem_takenFromPlan, mem_takenFromFolder]
  constructor
  · rintro (⟨hm, h⟩ | ⟨hd, hne, hm, h⟩)
    · exact ⟨(pyMatchName_iff sug x).mp hm, .inl h⟩
    · exact ⟨(pyMatchName_iff sug x).mp hm, .inr ⟨hd, hne, h⟩⟩
  · rintro ⟨hm, h | ⟨hd, hne, h⟩⟩
    · exact .inl ⟨(pyMatchName_iff sug x).mpr hm, h⟩
    · exact .inr ⟨hd, hne, (pyMatchName_iff sug x).mpr hm, h⟩

/-- Counterexample to C4 as stated: with `Foo (0).cbz` in the destination
folder, the computed taken set for suggested name `Foo` contains
`"Foo (0)"`, which is not of the claimed form `"Foo (N)"` for a positive
integer `N`. -/
theorem claim_C4_counterexample :
    "Foo (0)" ∈ sameNamesOf fsFooZero "Foo" "/d/Bar.cbz" "/d" [] ∧
    ¬ specTakenForm "Foo" "Foo (0)" := by
  refine ⟨by decide, ?_⟩
  rintro (h | ⟨N, hN, hc⟩)
  · exact absurd h (by decide)
  · have hd := congrArg String.data hc
    rw [candName_data] at hd
    have key : ("Foo (0)" : String).data = ("Foo".data ++ ' ' :: '(' :: ['0']) ++ [')'] := by
      decide
    rw [key] at hd
    have h1 := List.append_cancel_right hd
    have h2 := List.append_cancel_left h1
    have h0 : (natStr N).data = ['0'] := by
      have := h2.symm
      simpa using this
    have hs : natStr N = "0" := string_eq_of_data_eq h0
    have hv := natStr_val N
    rw [hs] at hv
    have : (0 : Nat) = N := by
      have hz : digListVal ("0" : String).data = 0 := by decide
      omega
    omega

/-- C1 (amended): for a volume whose title starts with `"The "` (resp.
`"A "`), `clean_series_name` is the full title with `", The"` (resp.
`", A"`) appended — the leading article is kept in place, not moved — and a
nonempty title starting with neither article is returned unchanged. -/
theorem claim_C1_clean_series_name (db : DB) (vid : Nat) (v : Volume) (t : String)
    (hv : db.volumes.find? (fun x => x.id == vid) = some v)
    (ht : v.title = some t) :
    ∃ fd, _get_formatting_data db vid none = .ok fd ∧
      (pyStartsWith t "The " = true →
        getKey fd "clean_series_name" = some (t ++ ", The")) ∧
      (pyStartsWith t "The " = false → pyStartsWith t "A " = true →
        getKey fd "clean_series_name" = some (t ++ ", A")) ∧
      (pyStartsWith t "The " = false → pyStartsWith t "A " = false → t ≠ "" →
        getKey fd "clean_series_name" = some t) := by
  rw [_get_formatting_data, hv]
  dsimp only
  rw [ht]
  dsimp only
  refine ⟨_, rfl, ?_, ?_, ?_⟩
  · intro h1
    simp [getKey, List.find?, h1]
  · intro h1 h2
    simp [getKey, List.find?, h1, h2]
  · intro h1 h2 h3
    simp [getKey, List.find?, h1, h2, orUnknown, h3]

/-- Counterexample to C1 as stated: the code yields
`"The Amazing Spider-Man, The"`, not the claimed
`"Amazing Spider-Man, The"`. -/
theorem claim_C1_counterexample :
    (∃ fd, _get_formatting_data dbArticle 1 none = .ok fd ∧
      getKey fd "clean_series_name" = some "The Amazing Spider-Man, The") ∧
    ("The Amazing Spider-Man, The" : String) ≠ "Amazing Spider-Man, The" :=
  ⟨⟨_, rfl, rfl⟩, by decide⟩

/-- Witness for C1 at the three example titles. -/
theorem claim_C1_clean_series_name_witness :
    (∃ fd, _get_formatting_data dbArticle 1 none = .ok fd ∧
      getKey fd "clean_series_name" = some ("The Amazing Spider-Man" ++ ", The")) ∧
    (∃ fd, _get_formatting_data dbArticle 2 none = .ok fd ∧
      getKey fd "clean_series_name" = some ("A History" ++ ", A")) ∧
    (∃ fd, _get_formatting_data dbArticle 3 none = .ok fd ∧
      getKey fd "clean_series_name" = some "Batman") := by
  refine ⟨?_, ?_, ?_⟩
  · obtain ⟨fd, hfd, h1, _, _⟩ := claim_C1_clean_series_name dbArticle 1 _ _ rfl rfl
    exact ⟨fd, hfd, h1 (by decide)⟩
  · obtain ⟨fd, hfd, _, h2, _⟩ := claim_C1_clean_series_name dbArticle 2 _ _ rfl rfl
    exact ⟨fd, hfd, h2 (by decide) (by decide)⟩
  · obtain ⟨fd, hfd, _, _, h3⟩ := claim_C1_clean_series_name dbArticle 3 _ _ rfl rfl
    exact ⟨fd, hfd, h3 (by decide) (by decide) (by decide)⟩

/-- C2: the separator check of `check_format`.  A forward slash and the
two-character sequence of two backslashes are rejected for both per-file
kinds, but a template consisting of exactly one backslash character passes
validation — the source's `r'\\'` raw string denotes two backslashes, so a
single backslash is not caught. -/
theorem claim_C2_path_separator_check :
    check_format "\\" "file_naming" = .ok () ∧
    check_format "\\" "file_naming_tpb" = .ok () ∧
    check_format "{series_name}/{volume_number}" "file_naming" =
      .error (.InvalidSettingValue "Path seperator found") ∧
    check_format "{series_name}/{volume_number}" "file_naming_tpb" =
      .error (.InvalidSettingValue "Path seperator found") ∧
    check_format "a\\\\b" "file_naming" =
      .error (.InvalidSettingValue "Path seperator found") ∧
    check_format "a\\b" "file_naming" = .ok () := by
  exact ⟨rfl, rfl, rfl, rfl, rfl, rfl⟩

/-- C9: every volume field substitutes `"Unknown"` when empty, but a `NULL`
title makes `_get_formatting_data` raise `AttributeError` (the `.startswith`
call on `None`) instead of succeeding with `"Unknown"`. -/
theorem claim_C9_unknown_fallbacks :
    _get_formatting_data dbNullTitle 1 none = .error .AttributeError ∧
    (∃ fd, _get_formatting_data dbEmptyFields 1 none = .ok fd ∧
      getKey fd "series_name" = some "Unknown" ∧
      getKey fd "clean_series_name" = some "Unknown" ∧
      getKey fd "volume_number" = some "Unknown" ∧
      getKey fd "comicvine_id" = some "Unknown" ∧
      getKey fd "year" = some "Unknown" ∧
      getKey fd "publisher" = some "Unknown") :=
  ⟨rfl, ⟨_, rfl, rfl, rfl, rfl, rfl, rfl, rfl⟩⟩

/-- C7 (amended): when no issue of the volume has the start calculated
number, `generate_issue_range_name` fails — but with the unhandled
`TypeError` of subscribing `fetchone()`'s `None`, not with
`IssueNotFound`. -/
theorem claim_C7_range_start_missing (db : DB) (vid : Nat) (s e : Int)
    (h : ∀ i ∈ db.issues, ¬(i.volume_id = vid ∧ i.calculated_issue_number = s)) :
    generate_issue_range_name db vid s e = .error .TypeError := by
  rw [generate_issue_range_name]
  have hf : db.issues.find?
      (fun i => i.volume_id == vid && i.calculated_issue_number == s) = none := by
    rw [List.find?_eq_none]
    intro i hi
    simp only [Bool.and_eq_true, beq_iff_eq, not_and]
    intro h1 h2
    exact h i hi ⟨h1, h2⟩
  rw [hf]

/-- Counterexample to C7 as stated: at a start number covered by no issue
the failure is `TypeError`, not `IssueNotFound`. -/
theorem claim_C7_counterexample :
    generate_issue_range_name dbRange 1 7 8 = .error .TypeError ∧
    generate_issue_range_name dbRange 1 7 8 ≠ .error .IssueNotFound :=
  ⟨rfl, by decide⟩

/-- Witness for C7 at a concrete input. -/
theorem claim_C7_range_start_missing_witness :
    generate_issue_range_name dbRange 1 9 2 = .error .TypeError :=
  claim_C7_range_start_missing dbRange 1 9 2 (by decide)

/-- C10: with `issueId = 0` the planner takes the single-issue branch
(`issue_id is None` is false): it plans inside the file's current folder
`/old`, not the whole-volume destination `/r/V`; the context builder treats
`0` as volume-only (`if issue_id:` is falsy); and `mass_rename`'s
`if not issue_id` treats `0` as whole-volume mode, so the volume's persisted
folder is updated (from `/orig` to `/old`) even though planning was
single-issue. -/
theorem claim_C10_issue_zero_disagreement :
    preview_mass_rename dbZero fsZero 1 (some 0) =
      .ok [⟨"/old/f.cbz", "/old/T X.cbz"⟩] ∧
    preview_mass_rename dbZero fsZero 1 none =
      .ok [⟨"/old/f.cbz", "/r/V/T X.cbz"⟩] ∧
    _get_formatting_data dbZero 1 (some 0) = _get_formatting_data dbZero 1 none ∧
    dbZero.volumes.map (fun v => v.folder) = ["/orig"] ∧
    (mass_rename [] ⟨dbZero, fsZero⟩ 1 (some 0)).1.db.volumes.map (fun v => v.folder) =
      ["/old"] ∧
    (mass_rename [] ⟨dbZero, fsZero⟩ 1 (some 0)).2 = none :=
  ⟨rfl, rfl, rfl, rfl, rfl, rfl⟩

/-! ### The covered-issues list is sorted ascending -/

theorem mem_insertByCalc {b x : Issue} {l : List Issue} :
    b ∈ insertByCalc x l ↔ b = x ∨ b ∈ l := by
  induction l with
  | nil => simp [insertByCalc]
  | cons y ys ih =>
    rw [insertByCalc]
    split <;> (simp [List.mem_cons, ih]; try tauto)

theorem sorted_insertByCalc {x : Issue} {l : List Issue}
    (h : l.Sorted (fun a b => a.calculated_issue_number ≤ b.calculated_issue_number)) :
    (insertByCalc x l).Sorted
      (fun a b => a.calculated_issue_number ≤ b.calculated_issue_number) := by
  induction l with
  | nil => simp [insertByCalc]
  | cons y ys ih =>
    rw [insertByCalc]
    rw [List.sorted_cons] at h
    obtain ⟨hy, hys⟩ := h
    by_cases hc : x.calculated_issue_number ≤ y.calculated_issue_number
    · rw [if_pos hc, List.sorted_cons]
      refine ⟨?_, List.sorted_cons.mpr ⟨hy, hys⟩⟩
      intro b hb
      rcases List.mem_cons.mp hb with rfl | hb2
      · exact hc
      · exact le_trans hc (hy b hb2)
    · rw [if_neg hc, List.sorted_cons]
      refine ⟨?_, ih hys⟩
      intro b hb
      rcases mem_insertByCalc.mp hb with rfl | hb2
      · exact (not_le.mp hc).le
      · exact hy b hb2

theorem sortByCalc_sorted (l : List Issue) :
    (sortByCalc l).Sorted
      (fun a b => a.calculated_issue_number ≤ b.calculated_issue_number) := by
  induction l with
  | nil => simp [sortByCalc]
  | cons x xs ih => exact sorted_insertByCalc ih

/-- C6: the planner's per-file classification.  Exactly one covered issue
gives the single-issue name; more than one covering the whole volume gives
the collected-edition name; more than one but fewer than the volume total
gives the range name over the first and last covered calculated numbers.
The covered list is sorted by calculated number ascending, and on the
concrete five-issue volume the 1–2 range renders an `issue_number` of
`"1-2"`. -/
theorem claim_C6_file_classification (db : DB) (vid fid : Nat) :
    (∀ i0, coveredIssues db fid = [i0] →
      suggestedNameFor db vid (issuesInVolume db vid) fid =
        generate_issue_name db vid i0.id) ∧
    (1 < (coveredIssues db fid).length →
      (coveredIssues db fid).length = issuesInVolume db vid →
      suggestedNameFor db vid (issuesInVolume db vid) fid = generate_tpb_name db vid) ∧
    (∀ i0 rest, coveredIssues db fid = i0 :: rest →
      1 < (i0 :: rest).length → (i0 :: rest).length < issuesInVolume db vid →
      suggestedNameFor db vid (issuesInVolume db vid) fid =
        generate_issue_range_name db vid i0.calculated_issue_number
          ((i0 :: rest).getLast (by simp)).calculated_issue_number) ∧
    (coveredIssues db fid).Sorted
      (fun a b => a.calculated_issue_number ≤ b.calculated_issue_number) ∧
    generate_issue_range_name dbRange 1 1 2 = .ok "1-2" := by
  refine ⟨?_, ?_, ?_, sortByCalc_sorted _, rfl⟩
  · intro i0 h
    rw [suggestedNameFor, h]
    simp
  · intro h1 h2
    cases hcv : coveredIssues db fid with
    | nil => rw [hcv] at h1; simp at h1
    | cons i0 rest =>
      rw [hcv] at h1 h2
      rw [suggestedNameFor, hcv]
      dsimp only
      rw [if_pos h1, if_pos h2]
  · intro i0 rest h h1 h2
    rw [suggestedNameFor, h]
    dsimp only
    rw [if_pos h1, if_neg (by omega : ¬(i0 :: rest).length = issuesInVolume db vid)]

/-- Witness for C6: the range file, the all-issues file, and a single-issue
file. -/
theorem claim_C6_file_classification_witness :
    suggestedNameFor dbRange 1 (issuesInVolume dbRange 1) 21 = .ok "1-2" ∧
    suggestedNameFor dbRange 1 (issuesInVolume dbRange 1) 22 = .ok "TPB NAME" ∧
    suggestedNameFor dbSwap 1 (issuesInVolume dbSwap 1) 21 = .ok "Bar" := by
  obtain ⟨_, _, ha3, _, har⟩ := claim_C6_file_classification dbRange 1 21
  obtain ⟨_, hb2, _, _, _⟩ := claim_C6_file_classification dbRange 1 22
  obtain ⟨hc1, _, _, _, _⟩ := claim_C6_file_classification dbSwap 1 21
  refine ⟨?_, ?_, ?_⟩
  · exact (ha3 _ _ rfl (by decide) (by decide)).trans har
  · exact (hb2 (by decide) (by decide)).trans (by rfl)
  · exact (hc1 _ rfl).trans (by rfl)

/-! ### Apply halts at the first failing move, keeping earlier updates -/

theorem applyRenames_fail (failSet : List String) :
    ∀ (P1 : List RenameEntry) (e : RenameEntry) (P2 : List RenameEntry) (st : SysState),
      (∀ x ∈ P1, x.before ∉ failSet) → e.before ∈ failSet →
      applyRenames failSet (P1 ++ e :: P2) st = (applyAll P1 st, some .MoveFailure)
  | [], e, P2, st, _, he => by
      rw [List.nil_append, applyRenames, rename_file, if_pos he]
      rfl
  | r :: P1, e, P2, st, h1, he => by
      have hr : r.before ∉ failSet := h1 r (by simp)
      rw [List.cons_append, applyRenames, rename_file, if_neg hr]
      dsimp only
      rw [applyRenames_fail failSet P1 e P2 _ (fun x hx => h1 x (by simp [hx])) he]
      rfl

/-- C8: if the move primitive fails on entry `k` of the plan (here: the
entry `e` after prefix `P1`), `mass_rename` has applied exactly the entries
of `P1` in plan order — their moves performed and their file rows
repointed, after the volume-folder step — and has touched nothing for `e`
or the entries after it. -/
theorem claim_C8_partial_failure (failSet : List String) (st : SysState) (vid : Nat)
    (iid : Option Nat) (P1 : List RenameEntry) (e : RenameEntry) (P2 : List RenameEntry)
    (hplan : preview_mass_rename st.db st.fs vid iid = .ok (P1 ++ e :: P2))
    (h1 : ∀ x ∈ P1, x.before ∉ failSet) (he : e.before ∈ failSet) :
    mass_rename failSet st vid iid =
      (applyAll P1 (volFolderStep st vid iid (P1 ++ e :: P2)), some .MoveFailure) := by
  rw [mass_rename, hplan]
  exact applyRenames_fail failSet P1 e P2 _ h1 he

/-- Witness for C8: three planned entries, failure on the second; the first
entry's move and metadata update are committed, the second and third files
are untouched. -/
theorem claim_C8_partial_failure_witness :
    mass_rename ["/r/T/x2.cbz"] ⟨dbTriple, fsTriple⟩ 1 none =
      (applyAll [⟨"/r/T/x1.cbz", "/r/T/A1.cbz"⟩]
        (volFolderStep ⟨dbTriple, fsTriple⟩ 1 none
          [⟨"/r/T/x1.cbz", "/r/T/A1.cbz"⟩, ⟨"/r/T/x2.cbz", "/r/T/A2.cbz"⟩,
           ⟨"/r/T/x3.cbz", "/r/T/A3.cbz"⟩]), some .MoveFailure) ∧
    (mass_rename ["/r/T/x2.cbz"] ⟨dbTriple, fsTriple⟩ 1 none).1.db.files =
      [⟨21, "/r/T/A1.cbz"⟩, ⟨22, "/r/T/x2.cbz"⟩, ⟨23, "/r/T/x3.cbz"⟩] ∧
    isfile (mass_rename ["/r/T/x2.cbz"] ⟨dbTriple, fsTriple⟩ 1 none).1.fs
      "/r/T/A1.cbz" = true ∧
    isfile (mass_rename ["/r/T/x2.cbz"] ⟨dbTriple, fsTriple⟩ 1 none).1.fs
      "/r/T/x2.cbz" = true ∧
    isfile (mass_rename ["/r/T/x2.cbz"] ⟨dbTriple, fsTriple⟩ 1 none).1.fs
      "/r/T/x3.cbz" = true := by
  refine ⟨?_, rfl, rfl, rfl, rfl⟩
  exact claim_C8_partial_failure ["/r/T/x2.cbz"] ⟨dbTriple, fsTriple⟩ 1 none
    [⟨"/r/T/x1.cbz", "/r/T/A1.cbz"⟩] ⟨"/r/T/x2.cbz", "/r/T/A2.cbz"⟩
    [⟨"/r/T/x3.cbz", "/r/T/A3.cbz"⟩] rfl (by decide) (by decide)

/-! ### List scanning helpers for the path lemmas -/

theorem takeWhile_append_all {α : Type} {p : α → Bool} {l1 : List α} (l2 : List α)
    (h : ∀ c ∈ l1, p c = true) :
    (l1 ++ l2).takeWhile p = l1 ++ l2.takeWhile p := by
  induction l1 with
  | nil => simp
  | cons c cs ih =>
    rw [List.cons_append, List.takeWhile_cons, if_pos (h c (by simp)),
      ih (fun x hx => h x (by simp [hx])), List.cons_append]

theorem dropWhile_append_all {α : Type} {p : α → Bool} {l1 : List α} (l2 : List α)
    (h : ∀ c ∈ l1, p c = true) :
    (l1 ++ l2).dropWhile p = l2.dropWhile p := by
  induction l1 with
  | nil => simp
  | cons c cs ih =>
    rw [List.cons_append, List.dropWhile_cons, if_pos (h c (by simp))]
    exact ih (fun x hx => h x (by simp [hx]))

theorem takeWhile_all {α : Type} {p : α → Bool} {l : List α}
    (h : ∀ c ∈ l, p c = true) : l.takeWhile p = l := by
  have h2 := takeWhile_append_all (p := p) [] h
  simpa using h2

theorem takeWhile_append_break {α : Type} {p : α → Bool} {l1 : List α} (l2 : List α)
    (h : ∃ c ∈ l1, p c = false) :
    (l1 ++ l2).takeWhile p = l1.takeWhile p := by
  induction l1 with
  | nil => obtain ⟨c, hc, _⟩ := h; simp at hc
  | cons c cs ih =>
    by_cases hpc : p c = true
    · rw [List.cons_append, List.takeWhile_cons, if_pos hpc, List.takeWhile_cons, if_pos hpc]
      obtain ⟨b, hb, hbf⟩ := h
      rcases List.mem_cons.mp hb with rfl | hb2
      · rw [hpc] at hbf; cases hbf
      · rw [ih ⟨b, hb2, hbf⟩]
    · rw [List.cons_append, List.takeWhile_cons, if_neg hpc, List.takeWhile_cons, if_neg hpc]

theorem dropWhile_append_break {α : Type} {p : α → Bool} {l1 : List α} (l2 : List α)
    (h : ∃ c ∈ l1, p c = false) :
    (l1 ++ l2).dropWhile p = l1.dropWhile p ++ l2 := by
  induction l1 with
  | nil => obtain ⟨c, hc, _⟩ := h; simp at hc
  | cons c cs ih =>
    by_cases hpc : p c = true
    · rw [List.cons_append, List.dropWhile_cons, if_pos hpc, List.dropWhile_cons, if_pos hpc]
      obtain ⟨b, hb, hbf⟩ := h
      rcases List.mem_cons.mp hb with rfl | hb2
      · rw [hpc] at hbf; cases hbf
      · rw [ih ⟨b, hb2, hbf⟩]
    · rw [List.cons_append, List.dropWhile_cons, if_neg hpc, List.dropWhile_cons, if_neg hpc,
        List.cons_append]

theorem dropWhile_all_nil {α : Type} {p : α → Bool} {l : List α}
    (h : ∀ c ∈ l, p c = true) : l.dropWhile p = [] := by
  induction l with
  | nil => rfl
  | cons c cs ih =>
    rw [List.dropWhile_cons, if_pos (h c (by simp))]
    exact ih (fun x hx => h x (by simp [hx]))

theorem dropWhile_ne_nil_of_exists {α : Type} {p : α → Bool} {l : List α}
    (h : ∃ c ∈ l, p c = false) : l.dropWhile p ≠ [] := by
  induction l with
  | nil => obtain ⟨c, hc, _⟩ := h; simp at hc
  | cons c cs ih =>
    by_cases hpc : p c = true
    · rw [List.dropWhile_cons, if_pos hpc]
      obtain ⟨b, hb, hbf⟩ := h
      rcases List.mem_cons.mp hb with rfl | hb2
      · rw [hpc] at hbf; cases hbf
      · exact ih ⟨b, hb2, hbf⟩
    · rw [List.dropWhile_cons, if_neg hpc]
      simp

theorem dropWhile_first_false {α : Type} {p : α → Bool} {l : List α} {c : α} {t : List α}
    (h : l.dropWhile p = c :: t) : p c = false := by
  induction l with
  | nil => simp at h
  | cons a l2 ih =>
    rw [List.dropWhile_cons] at h
    by_cases hpa : p a = true
    · rw [if_pos hpa] at h
      exact ih h
    · rw [if_neg hpa] at h
      cases h
      cases hv : p c
      · rfl
      · exact absurd hv hpa

theorem drop_length_takeWhile {α : Type} (p : α → Bool) (l : List α) :
    l.drop (l.takeWhile p).length = l.dropWhile p := by
  induction l with
  | nil => rfl
  | cons c cs ih =>
    rw [List.takeWhile_cons, List.dropWhile_cons]
    by_cases hpc : p c = true
    · rw [if_pos hpc, if_pos hpc]
      simpa using ih
    · rw [if_neg hpc, if_neg hpc]
      rfl

/-! ### Joining a clean component to a well-formed folder -/

theorem goodFolder_spec {F : String} (h : goodFolder F = true) :
    F.data ≠ [] ∧ F.data.getLast? ≠ some '/' := by
  rw [goodFolder] at h
  constructor
  · intro hn; rw [hn] at h; simp at h
  · intro hl; rw [hl] at h; simp at h

theorem string_eta (s : String) : (⟨s.data⟩ : String) = s := rfl

theorem pjoin_data {F x : String} (hgood : goodFolder F = true)
    (hx : ∀ c ∈ x.data, ¬c = '/') : (pjoin F x).data = F.data ++ '/' :: x.data := by
  obtain ⟨hne, hlast⟩ := goodFolder_spec hgood
  rw [pjoin]
  have h1 : ¬x.data.head? = some '/' := by
    cases hxd : x.data with
    | nil => simp
    | cons c cs =>
      simp only [List.head?_cons, Option.some_inj]
      exact hx c (by simp [hxd])
  rw [if_neg h1]
  have h2 : ¬(F.data = [] ∨ F.data.getLast? = some '/') := by
    rintro (h | h)
    · exact hne h
    · exact hlast h
  rw [if_neg h2]
  simp [String.data_append]

theorem basename_pjoin {F x : String} (hgood : goodFolder F = true)
    (hx : ∀ c ∈ x.data, ¬c = '/') : basename (pjoin F x) = x := by
  rw [basename, pjoin_data hgood hx]
  have hrev : (F.data ++ '/' :: x.data).reverse = x.data.reverse ++ '/' :: F.data.reverse := by
    simp
  rw [hrev]
  have hall : ∀ c ∈ x.data.reverse, (c != '/') = true := by
    intro c hc
    simpa using hx c (List.mem_reverse.mp hc)
  rw [takeWhile_append_all _ hall]
  have hstop : List.takeWhile (fun c => c != '/') ('/' :: F.data.reverse) = [] := by
    rw [List.takeWhile_cons]
    simp
  rw [hstop, List.append_nil, List.reverse_reverse]

theorem dirname_pjoin {F x : String} (hgood : goodFolder F = true)
    (hx : ∀ c ∈ x.data, ¬c = '/') : dirname (pjoin F x) = F := by
  obtain ⟨hne, hlast⟩ := goodFolder_spec hgood
  rw [dirname, pjoin_data hgood hx]
  have hrev : (F.data ++ '/' :: x.data).reverse = x.data.reverse ++ '/' :: F.data.reverse := by
    simp
  rw [hrev]
  have hall : ∀ c ∈ x.data.reverse, (c != '/') = true := by
    intro c hc
    simpa using hx c (List.mem_reverse.mp hc)
  rw [dropWhile_append_all _ hall]
  have hstop : List.dropWhile (fun c => c != '/') ('/' :: F.data.reverse) =
      '/' :: F.data.reverse := by
    rw [List.dropWhile_cons]
    simp
  rw [hstop]
  cases hR : F.data.reverse with
  | nil =>
      exact absurd (by simpa using congrArg List.reverse hR) hne
  | cons c0 rest =>
    have hc0 : F.data.getLast? = some c0 := by
      rw [← List.head?_reverse, hR, List.head?_cons]
    have hc0ne : ¬c0 = '/' := fun hc => hlast (hc ▸ hc0)
    have hcond : (('/' :: c0 :: rest).all fun c => decide (c = '/')) = false := by
      simp only [List.all_cons, Bool.and_eq_false_iff]
      right; left
      simpa using hc0ne
    rw [hcond]
    simp only [Bool.false_eq_true, if_false]
    have hdw : List.dropWhile (fun c => decide (c = '/')) ('/' :: c0 :: rest) = c0 :: rest := by
      rw [List.dropWhile_cons, if_pos (by simp), List.dropWhile_cons, if_neg (by simpa using hc0ne)]
    rw [hdw, ← hR, List.reverse_reverse]

theorem mem_of_mem_dropWhile {α : Type} {p : α → Bool} {l : List α} {a : α}
    (h : a ∈ l.dropWhile p) : a ∈ l := by
  induction l with
  | nil => simp at h
  | cons c cs ih =>
    rw [List.dropWhile_cons] at h
    by_cases hpc : p c = true
    · rw [if_pos hpc] at h
      exact List.mem_cons_of_mem c (ih h)
    · rw [if_neg hpc] at h
      exact h

theorem splitextL_eq (p : List Char) :
    splitextL p =
      match p.reverse.dropWhile (fun c => c != '.' && c != '/') with
      | '.' :: pre =>
          if (pre.takeWhile (fun c => c != '/')).any (fun c => c != '.') then
            (pre.reverse,
             '.' :: (p.reverse.takeWhile (fun c => c != '.' && c != '/')).reverse)
          else (p, [])
      | _ => (p, []) := by
  rw [splitextL]
  rw [drop_length_takeWhile]

theorem splitextL_snd_append (Fd : List Char) (x : String)
    (hx : ∀ c ∈ x.data, ¬c = '/') :
    (splitextL (Fd ++ '/' :: x.data)).2 = (splitextL x.data).2 := by
  have hrev : (Fd ++ '/' :: x.data).reverse = x.data.reverse ++ '/' :: Fd.reverse := by
    simp
  by_cases hdot : ∀ c ∈ x.data.reverse, ((c != '.' && c != '/') : Bool) = true
  · have h2 : (Fd ++ '/' :: x.data).reverse.dropWhile (fun c => c != '.' && c != '/') =
        '/' :: Fd.reverse := by
      rw [hrev, dropWhile_append_all _ hdot, List.dropWhile_cons]
      simp
    have h4 : x.data.reverse.dropWhile (fun c => c != '.' && c != '/') = [] :=
      dropWhile_all_nil hdot
    rw [splitextL_eq, splitextL_eq, h2, h4]
    rfl
  · push_neg at hdot
    obtain ⟨c, hcm, hcf⟩ := hdot
    have hcf' : ((c != '.' && c != '/') : Bool) = false := by
      cases hv : ((c != '.' && c != '/') : Bool)
      · rfl
      · exact absurd hv hcf
    cases hdw : x.data.reverse.dropWhile (fun c => c != '.' && c != '/') with
    | nil => exact absurd hdw (dropWhile_ne_nil_of_exists ⟨c, hcm, hcf'⟩)
    | cons c0 pre =>
      have hq0 : ((c0 != '.' && c0 != '/') : Bool) = false :=
        dropWhile_first_false (p := fun c => c != '.' && c != '/') hdw
      have hc0x : c0 ∈ x.data := by
        have : c0 ∈ x.data.reverse := mem_of_mem_dropWhile (hdw ▸ List.mem_cons_self c0 pre)
        exact List.mem_reverse.mp this
      have hc0 : c0 = '.' := by
        simp only [Bool.and_eq_false_iff, bne_eq_false_iff_eq] at hq0
        rcases hq0 with h | h
        · exact h
        · exact absurd h (hx c0 hc0x)
      subst hc0
      have hfull : (Fd ++ '/' :: x.data).reverse.dropWhile (fun c => c != '.' && c != '/') =
          '.' :: (pre ++ '/' :: Fd.reverse) := by
        rw [hrev, dropWhile_append_break _ ⟨c, hcm, hcf'⟩, hdw, List.cons_append]
      have hpreall : ∀ a ∈ pre, ((a != '/') : Bool) = true := by
        intro a ha
        have hax : a ∈ x.data := by
          have : a ∈ x.data.reverse :=
            mem_of_mem_dropWhile (hdw ▸ List.mem_cons_of_mem _ ha)
          exact List.mem_reverse.mp this
        simpa using hx a hax
      have hTW : (pre ++ '/' :: Fd.reverse).takeWhile (fun c => c != '/') = pre := by
        rw [takeWhile_append_all _ hpreall, List.takeWhile_cons]
        simp
      have hTW2 : pre.takeWhile (fun c => c != '/') = pre := takeWhile_all hpreall
      have hTK : (Fd ++ '/' :: x.data).reverse.takeWhile (fun c => c != '.' && c != '/') =
          x.data.reverse.takeWhile (fun c => c != '.' && c != '/') := by
        rw [hrev]
        exact takeWhile_append_break _ ⟨c, hcm, hcf'⟩
      rw [splitextL_eq, splitextL_eq, hfull, hdw]
      split
      · rename_i pre1 heq1
        injection heq1 with _ heq1b
        subst heq1b
        rw [hTW]
        by_cases hcond : (pre.any (fun c => c != '.')) = true
        · rw [if_pos hcond, if_pos (by rw [hTW2]; exact hcond), hTK]
        · rw [if_neg hcond, if_neg (by rw [hTW2]; exact hcond)]
      · rename_i heq
        exact absurd rfl (heq (pre ++ '/' :: Fd.reverse))

theorem splitext_snd_pjoin {F x : String} (hgood : goodFolder F = true)
    (hx : ∀ c ∈ x.data, ¬c = '/') :
    (splitext (pjoin F x)).2 = (splitext x).2 := by
  show (⟨(splitextL (pjoin F x).data).2⟩ : String) = ⟨(splitextL x.data).2⟩
  rw [pjoin_data hgood hx]
  exact congrArg String.mk (splitextL_snd_append F.data x hx)

/-! ### What a successful apply run does to the state -/

theorem chainUpdPath_no_match : ∀ (P : List RenameEntry) (p : String),
    (∀ e ∈ P, e.before ≠ p) → chainUpdPath P p = p
  | [], _, _ => rfl
  | r :: rs, p, h => by
      rw [chainUpdPath, if_neg (fun hp => h r (by simp) (by rw [hp]))]
      exact chainUpdPath_no_match rs p (fun e he => h e (by simp [he]))

theorem chainUpdPath_split (e : RenameEntry) (P2 : List RenameEntry) :
    ∀ (P1 : List RenameEntry),
      (∀ x ∈ P1, x.before ≠ e.before) → (∀ x ∈ P2, x.before ≠ e.after) →
      chainUpdPath (P1 ++ e :: P2) e.before = e.after
  | [], _, h2 => by
      rw [List.nil_append, chainUpdPath, if_pos rfl]
      exact chainUpdPath_no_match P2 e.after (fun x hx => h2 x hx)
  | r :: rs, h1, h2 => by
      rw [List.cons_append, chainUpdPath,
        if_neg (fun hp => h1 r (by simp) (by rw [hp]))]
      exact chainUpdPath_split e P2 rs (fun x hx => h1 x (by simp [hx])) h2

theorem mem_moveAll_files : ∀ (P : List RenameEntry) (fs : FS) (p : String),
    p ∈ (moveAll P fs).files → p ∈ fs.files ∨ ∃ e ∈ P, e.after = p
  | [], _, _, h => .inl h
  | r :: rs, fs, p, h => by
      rcases mem_moveAll_files rs _ p h with h2 | ⟨e, he, ha⟩
      · rw [fsMove] at h2
        rcases List.mem_append.mp h2 with h3 | h3
        · exact .inl (List.mem_of_mem_erase (List.mem_of_mem_filter h3))
        · right
          exact ⟨r, by simp, (List.mem_singleton.mp h3).symm⟩
      · right
        exact ⟨e, by simp [he], ha⟩

theorem applyRenames_none : ∀ (P : List RenameEntry) (st : SysState),
    applyRenames [] P st = (applyAll P st, none)
  | [], _ => rfl
  | r :: rs, st => by
      rw [applyRenames, rename_file, if_neg (by simp)]
      exact applyRenames_none rs _

theorem applyAll_char : ∀ (P : List RenameEntry) (st : SysState),
    applyAll P st =
      ⟨⟨st.db.volumes, st.db.issues,
        st.db.files.map (fun g => ⟨g.id, chainUpdPath P g.filepath⟩),
        st.db.links, st.db.root_folders, st.db.config⟩,
       moveAll P st.fs⟩
  | [], st => by
      have hfun : (fun g : DBFile => (⟨g.id, chainUpdPath [] g.filepath⟩ : DBFile)) =
          fun g => g := by
        funext g; rfl
      rw [applyAll, hfun, List.map_id']
      rfl
  | r :: rs, st => by
      rw [applyAll, applyAll_char rs]
      have hfiles : (updFilepath st.db r.before r.after).files.map
          (fun g => (⟨g.id, chainUpdPath rs g.filepath⟩ : DBFile)) =
          st.db.files.map (fun g => ⟨g.id, chainUpdPath (r :: rs) g.filepath⟩) := by
        rw [updFilepath]
        dsimp only
        rw [List.map_map]
        congr 1
        funext g
        simp only [Function.comp_apply]
        rw [chainUpdPath]
        by_cases hg : g.filepath = r.before
        · rw [if_pos hg, if_pos hg]
        · rw [if_neg hg, if_neg hg]
      rw [hfiles]
      rfl

theorem volFolderStep_fs (st : SysState) (vid : Nat) (iid : Option Nat)
    (P : List RenameEntry) : (volFolderStep st vid iid P).fs = st.fs := by
  cases P with
  | nil => rfl
  | cons r0 rs =>
    simp only [volFolderStep]
    split <;> rfl

theorem volFolderStep_db_files (st : SysState) (vid : Nat) (iid : Option Nat)
    (P : List RenameEntry) : (volFolderStep st vid iid P).db.files = st.db.files := by
  cases P with
  | nil => rfl
  | cons r0 rs =>
    simp only [volFolderStep]
    split <;> rfl

theorem volFolderStep_db_issues (st : SysState) (vid : Nat) (iid : Option Nat)
    (P : List RenameEntry) : (volFolderStep st vid iid P).db.issues = st.db.issues := by
  cases P with
  | nil => rfl
  | cons r0 rs =>
    simp only [volFolderStep]
    split <;> rfl

/-! ### Name generation ignores the volume-folder field and the files table -/

theorem find?_updVolumeFolder (db : DB) (vid : Nat) (fol : String) (v' : Nat) :
    (updVolumeFolder db vid fol).volumes.find? (fun x => x.id == v') =
      (db.volumes.find? (fun x => x.id == v')).map
        (fun x => if x.id = vid then { x with folder := fol } else x) := by
  rw [updVolumeFolder]
  dsimp only
  rw [List.find?_map]
  have hp : ((fun x => x.id == v') ∘ fun v : Volume =>
      if v.id = vid then { v with folder := fol } else v) =
      (fun x : Volume => x.id == v') := by
    funext x
    by_cases hx : x.id = vid
    · simp [Function.comp, hx]
    · simp [Function.comp, hx]
  rw [hp]

theorem gffd_updVolumeFolder (db : DB) (vid : Nat) (fol : String) (v' : Nat)
    (iid : Option Nat) :
    _get_formatting_data (updVolumeFolder db vid fol) v' iid =
      _get_formatting_data db v' iid := by
  rw [_get_formatting_data, _get_formatting_data, find?_updVolumeFolder]
  cases hv : db.volumes.find? (fun x => x.id == v') with
  | none => rfl
  | some v =>
    rw [Option.map_some']
    by_cases hid : v.id = vid
    · rw [if_pos hid]
      rfl
    · rw [if_neg hid]
      rfl

theorem generate_issue_name_updVolumeFolder (db : DB) (vid : Nat) (fol : String)
    (v' i' : Nat) :
    generate_issue_name (updVolumeFolder db vid fol) v' i' =
      generate_issue_name db v' i' := by
  rw [generate_issue_name, generate_issue_name, gffd_updVolumeFolder]
  rfl

theorem generate_tpb_name_updVolumeFolder (db : DB) (vid : Nat) (fol : String) (v' : Nat) :
    generate_tpb_name (updVolumeFolder db vid fol) v' = generate_tpb_name db v' := by
  rw [generate_tpb_name, generate_tpb_name, gffd_updVolumeFolder]
  rfl

theorem generate_volume_folder_name_updVolumeFolder (db : DB) (vid : Nat) (fol : String)
    (v' : Nat) :
    generate_volume_folder_name (updVolumeFolder db vid fol) v' =
      generate_volume_folder_name db v' := by
  rw [generate_volume_folder_name, generate_volume_folder_name, gffd_updVolumeFolder]
  rfl

theorem generate_issue_range_name_updVolumeFolder (db : DB) (vid : Nat) (fol : String)
    (v' : Nat) (s e : Int) :
    generate_issue_range_name (updVolumeFolder db vid fol) v' s e =
      generate_issue_range_name db v' s e := by
  rw [generate_issue_range_name, generate_issue_range_name]
  have hiss : (updVolumeFolder db vid fol).issues = db.issues := rfl
  rw [hiss]
  cases hf : db.issues.find? (fun i =>
      i.volume_id == v' && i.calculated_issue_number == s) with
  | none => rfl
  | some i0 =>
    dsimp only
    rw [gffd_updVolumeFolder]
    rfl

theorem suggestedNameFor_updVolumeFolder (db : DB) (vid : Nat) (fol : String)
    (v' niv fid : Nat) :
    suggestedNameFor (updVolumeFolder db vid fol) v' niv fid =
      suggestedNameFor db v' niv fid := by
  rw [suggestedNameFor, suggestedNameFor]
  have hC : coveredIssues (updVolumeFolder db vid fol) fid = coveredIssues db fid := rfl
  rw [hC]
  cases hcv : coveredIssues db fid with
  | nil => rfl
  | cons i0 rest =>
    dsimp only
    by_cases h1 : (i0 :: rest).length > 1
    · rw [if_pos h1, if_pos h1]
      by_cases h2 : (i0 :: rest).length = niv
      · rw [if_pos h2, if_pos h2, generate_tpb_name_updVolumeFolder]
      · rw [if_neg h2, if_neg h2, generate_issue_range_name_updVolumeFolder]
    · rw [if_neg h1, if_neg h1, generate_issue_name_updVolumeFolder]

theorem rootFolderOf_updVolumeFolder (db : DB) (vid : Nat) (fol : String) (v' : Nat) :
    rootFolderOf (updVolumeFolder db vid fol) v' = rootFolderOf db v' := by
  rw [rootFolderOf, rootFolderOf, find?_updVolumeFolder]
  cases hv : db.volumes.find? (fun x => x.id == v') with
  | none => rfl
  | some v =>
    rw [Option.map_some']
    by_cases hid : v.id = vid
    · rw [if_pos hid]
      rfl
    · rw [if_neg hid]
      rfl

/-! ### The enumeration after an apply run is the mapped enumeration -/

theorem filter_map_comm {α β : Type} (m : α → β) (q : β → Bool) (q' : α → Bool)
    (h : ∀ a, q (m a) = q' a) : ∀ l : List α, (l.map m).filter q = (l.filter q').map m
  | [] => rfl
  | a :: l => by
      rw [List.map_cons, List.filter_cons, List.filter_cons, h a]
      by_cases ha : q' a = true
      · rw [if_pos ha, if_pos ha, List.map_cons, filter_map_comm m q q' h l]
      · rw [if_neg ha, if_neg ha, filter_map_comm m q q' h l]

/-! ### Filesystem membership across a run of moves -/

theorem isfile_iff_mem (fs : FS) (p : String) : isfile fs p = true ↔ p ∈ fs.files :=
  ⟨fun h => List.mem_of_elem_eq_true h, fun h => List.elem_eq_true_of_mem h⟩

theorem forall_ne_of_contains_false {l : List Char} {a : Char}
    (h : l.contains a = false) : ∀ c ∈ l, ¬c = a := by
  intro c hc hca
  subst hca
  have h2 : l.contains c = true := List.elem_eq_true_of_mem hc
  rw [h2] at h
  cases h

theorem mem_fsMove_keep {fs : FS} {p : String} (b a : String) (hp : p ∈ fs.files)
    (hb : b ≠ p) : p ∈ (fsMove fs b a).files := by
  rw [fsMove]
  by_cases hpa : p = a
  · exact List.mem_append.mpr (.inr (by simp [hpa]))
  · refine List.mem_append.mpr (.inl (List.mem_filter.mpr ⟨?_, decide_eq_true hpa⟩))
    exact (List.mem_erase_of_ne (fun h => hb h.symm)).mpr hp

theorem mem_fsMove_self (fs : FS) (b a : String) : a ∈ (fsMove fs b a).files := by
  rw [fsMove]
  exact List.mem_append.mpr (.inr (by simp))

theorem moveAll_keep : ∀ (P : List RenameEntry) (fs : FS) (p : String),
    p ∈ fs.files → (∀ e ∈ P, e.before ≠ p) → p ∈ (moveAll P fs).files
  | [], _, _, hp, _ => hp
  | r :: rs, fs, p, hp, h => by
      rw [moveAll]
      exact moveAll_keep rs _ p (mem_fsMove_keep r.before r.after hp (h r (by simp)))
        (fun e he => h e (by simp [he]))

theorem moveAll_append : ∀ (P1 P2 : List RenameEntry) (fs : FS),
    moveAll (P1 ++ P2) fs = moveAll P2 (moveAll P1 fs)
  | [], _, _ => rfl
  | r :: rs, P2, fs => by
      rw [List.cons_append, moveAll, moveAll, moveAll_append rs]

/-! ### Candidate-file enumeration after the apply run -/

theorem mem_filesOfVolume_sub {db : DB} {vid : Nat} {g : DBFile}
    (h : g ∈ filesOfVolume db vid) : g ∈ db.files :=
  List.mem_of_mem_filter h

theorem mem_filesOfIssue_sub {db : DB} {iid : Nat} {g : DBFile}
    (h : g ∈ filesOfIssue db iid) : g ∈ db.files :=
  List.mem_of_mem_filter h

theorem nodup_paths_filter (q : DBFile → Bool) (files : List DBFile)
    (h : (files.map DBFile.filepath).Nodup) :
    ((files.filter q).map DBFile.filepath).Nodup :=
  List.Nodup.sublist ((List.filter_sublist files).map DBFile.filepath) h

theorem filesOfVolume_map_files (db : DB) (V' : List Volume) (h : DBFile → String)
    (vid : Nat) :
    filesOfVolume ⟨V', db.issues, db.files.map (fun g => ⟨g.id, h g⟩),
      db.links, db.root_folders, db.config⟩ vid =
    (filesOfVolume db vid).map (fun g => ⟨g.id, h g⟩) := by
  rw [filesOfVolume, filesOfVolume]
  exact filter_map_comm _ _ _ (fun g => rfl) db.files

theorem filesOfIssue_map_files (db : DB) (V' : List Volume) (h : DBFile → String)
    (iid : Nat) :
    filesOfIssue ⟨V', db.issues, db.files.map (fun g => ⟨g.id, h g⟩),
      db.links, db.root_folders, db.config⟩ iid =
    (filesOfIssue db iid).map (fun g => ⟨g.id, h g⟩) := by
  rw [filesOfIssue, filesOfIssue]
  exact filter_map_comm _ _ _ (fun g => rfl) db.files

/-! ### Self-exclusion: a file already bearing its clean name resolves to it -/

theorem sni_self (fs2 : FS) (F s ext : String)
    (hgood : goodFolder F = true)
    (hsl : ∀ c ∈ (s ++ ext).data, ¬c = '/')
    (hsp : splitext (s ++ ext) = (s, ext)) :
    same_name_indexing fs2 s (pjoin F (s ++ ext)) F [] = s := by
  refine same_name_indexing_eq_of_not_mem fs2 s (pjoin F (s ++ ext)) F [] ?_
  rw [sameNamesOf]
  intro hmem
  rcases List.mem_append.mp hmem with h1 | h2
  · rw [takenFromPlan] at h1
    exact absurd h1 (by simp)
  · rw [takenFromFolder] at h2
    by_cases hd : isdir fs2 F = true
    · rw [if_pos hd] at h2
      have hpred := (List.mem_filter.mp h2).2
      rw [basename_pjoin hgood hsl, hsp] at hpred
      simp at hpred
    · rw [if_neg hd] at h2
      exact absurd h2 (List.not_mem_nil s)

/-! ### The planning loop only appends entries for on-disk files -/

theorem previewLoop_ok_prefix (db : DB) (fs : FS) (vid niv : Nat) (F : String) :
    ∀ (L : List DBFile) (acc P : List RenameEntry),
      previewLoop db fs vid niv F L acc = .ok P →
      ∃ E, P = acc ++ E ∧
        ∀ e ∈ E, ∃ g ∈ L, e.before = g.filepath ∧ isfile fs g.filepath = true
  | [], acc, P, h => by
      rw [previewLoop] at h
      injection h with h2
      exact ⟨[], by rw [← h2, List.append_nil], by simp⟩
  | f :: rest, acc, P, h => by
      rw [previewLoop] at h
      by_cases hisf : isfile fs f.filepath = true
      · rw [if_pos hisf] at h
        cases hs : suggestedNameFor db vid niv f.id with
        | error e =>
            rw [hs] at h
            exact Except.noConfusion h
        | ok s =>
            rw [hs] at h
            dsimp only at h
            by_cases hne : f.filepath ≠
                pjoin F (same_name_indexing fs s f.filepath F acc ++ (splitext f.filepath).2)
            · rw [if_pos hne] at h
              obtain ⟨E, hP, hE⟩ := previewLoop_ok_prefix db fs vid niv F rest _ P h
              refine ⟨⟨f.filepath,
                  pjoin F (same_name_indexing fs s f.filepath F acc ++
                    (splitext f.filepath).2)⟩ :: E, ?_, ?_⟩
              · rw [hP, List.append_assoc]
                rfl
              · intro e he
                rcases List.mem_cons.mp he with rfl | he2
                · exact ⟨f, by simp, rfl, hisf⟩
                · obtain ⟨g, hg, hb, hf⟩ := hE e he2
                  exact ⟨g, by simp [hg], hb, hf⟩
            · rw [if_neg hne] at h
              obtain ⟨E, hP, hE⟩ := previewLoop_ok_prefix db fs vid niv F rest _ P h
              refine ⟨E, hP, fun e he => ?_⟩
              obtain ⟨g, hg, hb, hf⟩ := hE e he
              exact ⟨g, by simp [hg], hb, hf⟩
      · rw [if_neg hisf] at h
        obtain ⟨E, hP, hE⟩ := previewLoop_ok_prefix db fs vid niv F rest _ P h
        refine ⟨E, hP, fun e he => ?_⟩
        obtain ⟨g, hg, hb, hf⟩ := hE e he
        exact ⟨g, by simp [hg], hb, hf⟩

/-! ### The main idempotence induction: after a clean apply run, the second
planning pass adds no entry -/

theorem previewLoop_idem_aux (db db' : DB) (fs : FS) (vid niv : Nat) (F : String)
    (P : List RenameEntry)
    (hgood : goodFolder F = true)
    (hsg : ∀ fid, suggestedNameFor db' vid niv fid = suggestedNameFor db vid niv fid)
    (H4 : ∀ e ∈ P, ∀ g ∈ db.files, e.after ≠ g.filepath) :
    ∀ (L : List DBFile) (acc : List RenameEntry),
      (∀ g ∈ L, g ∈ db.files) →
      ((L.map DBFile.filepath).Nodup) →
      (∀ x ∈ acc, ∀ g ∈ L, x.before ≠ g.filepath) →
      previewLoop db fs vid niv F L acc = .ok P →
      cleanPlan db fs vid niv F L acc = true →
      (previewLoop db' (moveAll P fs) vid niv F
        (L.map (fun g => ⟨g.id, chainUpdPath P g.filepath⟩)) [] = .ok []) ∧
      ∀ g ∈ L, chainUpdPath P g.filepath = g.filepath ∨
        dirname (chainUpdPath P g.filepath) = F
  | [], _, _, _, _, _, _ => ⟨rfl, by simp⟩
  | g :: rest, acc, hsub, hnd, hacc, h, hcp => by
      obtain ⟨hgnotin, hnd'⟩ := List.nodup_cons.mp hnd
      have hneq : ∀ g' ∈ rest, g.filepath ≠ g'.filepath := by
        intro g' hg' heq
        exact hgnotin (by rw [heq]; exact List.mem_map.mpr ⟨g', hg', rfl⟩)
      by_cases hisf : isfile fs g.filepath = true
      · rw [previewLoop, if_pos hisf] at h
        rw [cleanPlan, if_pos hisf] at hcp
        cases hs : suggestedNameFor db vid niv g.id with
        | error e0 =>
            rw [hs] at hcp
            dsimp only at hcp
            exact Bool.noConfusion hcp
        | ok s =>
          rw [hs] at h hcp
          dsimp only at h hcp
          obtain ⟨hfo, hcp2⟩ := by rw [Bool.and_eq_true] at hcp; exact hcp
          rw [fileOk, hs] at hfo
          dsimp only at hfo
          obtain ⟨hfo1, hfo3⟩ := by rw [Bool.and_eq_true] at hfo; exact hfo
          obtain ⟨hfo1a, hfo1b⟩ := by rw [Bool.and_eq_true] at hfo1; exact hfo1
          have hsni : same_name_indexing fs s g.filepath F acc = s :=
            of_decide_eq_true hfo1a
          have hsp : splitext (s ++ (splitext g.filepath).2) =
              (s, (splitext g.filepath).2) := of_decide_eq_true hfo1b
          have hnosl : ∀ c ∈ (s ++ (splitext g.filepath).2).data, ¬c = '/' :=
            forall_ne_of_contains_false (by simpa using hfo3)
          rw [hsni] at h
          by_cases hne : g.filepath = pjoin F (s ++ (splitext g.filepath).2)
          · rw [if_neg (not_not_intro hne)] at h hcp2
            obtain ⟨E, hP, hE⟩ := previewLoop_ok_prefix db fs vid niv F rest acc P h
            have hbef : ∀ e ∈ P, e.before ≠ g.filepath := by
              intro e he
              rw [hP] at he
              rcases List.mem_append.mp he with h1 | h2
              · exact hacc e h1 g (by simp)
              · obtain ⟨g', hg', hb, _⟩ := hE e h2
                rw [hb]
                exact Ne.symm (hneq g' hg')
            have hch : chainUpdPath P g.filepath = g.filepath :=
              chainUpdPath_no_match P g.filepath hbef
            have IH := previewLoop_idem_aux db db' fs vid niv F P hgood hsg H4 rest acc
              (fun g' hg' => hsub g' (by simp [hg'])) hnd'
              (fun x hx g' hg' => hacc x hx g' (by simp [hg'])) h hcp2
            refine ⟨?_, ?_⟩
            · rw [List.map_cons, previewLoop]
              dsimp only
              rw [hch]
              have hon : isfile (moveAll P fs) g.filepath = true :=
                (isfile_iff_mem _ _).mpr (moveAll_keep P fs g.filepath
                  ((isfile_iff_mem _ _).mp hisf) hbef)
              rw [if_pos hon, hsg g.id, hs]
              dsimp only
              have hs1 : same_name_indexing (moveAll P fs) s g.filepath F [] = s := by
                rw [hne]
                exact sni_self (moveAll P fs) F s ((splitext g.filepath).2) hgood hnosl hsp
              rw [hs1]
              rw [if_neg (not_not_intro hne)]
              exact IH.1
            · intro g' hg'
              rcases List.mem_cons.mp hg' with rfl | hg2
              · exact .inl hch
              · exact IH.2 g' hg2
          · rw [if_pos hne] at h hcp2
            obtain ⟨E, hP0, hE⟩ := previewLoop_ok_prefix db fs vid niv F rest _ P h
            have hP : P = acc ++
                ⟨g.filepath, pjoin F (s ++ (splitext g.filepath).2)⟩ :: E := by
              rw [hP0, List.append_assoc]
              rfl
            have heP : (⟨g.filepath, pjoin F (s ++ (splitext g.filepath).2)⟩ :
                RenameEntry) ∈ P := by
              rw [hP]
              exact List.mem_append.mpr (.inr (List.mem_cons_self _ _))
            have hEb : ∀ x ∈ E, x.before ≠ pjoin F (s ++ (splitext g.filepath).2) := by
              intro x hx
              obtain ⟨g', hg', hb, _⟩ := hE x hx
              rw [hb]
              exact Ne.symm (H4 _ heP g' (hsub g' (by simp [hg'])))
            have hch : chainUpdPath P g.filepath =
                pjoin F (s ++ (splitext g.filepath).2) := by
              rw [hP]
              exact chainUpdPath_split
                ⟨g.filepath, pjoin F (s ++ (splitext g.filepath).2)⟩ E acc
                (fun x hx => hacc x hx g (by simp)) hEb
            have hacc' : ∀ x ∈ acc ++
                [(⟨g.filepath, pjoin F (s ++ (splitext g.filepath).2)⟩ : RenameEntry)],
                ∀ g' ∈ rest, x.before ≠ g'.filepath := by
              intro x hx g' hg'
              rcases List.mem_append.mp hx with h1 | h1
              · exact hacc x h1 g' (by simp [hg'])
              · rw [List.mem_singleton.mp h1]
                exact hneq g' hg'
            have IH := previewLoop_idem_aux db db' fs vid niv F P hgood hsg H4 rest _
              (fun g' hg' => hsub g' (by simp [hg'])) hnd' hacc' h hcp2
            refine ⟨?_, ?_⟩
            · rw [List.map_cons, previewLoop]
              dsimp only
              rw [hch]
              have hon : isfile (moveAll P fs)
                  (pjoin F (s ++ (splitext g.filepath).2)) = true := by
                refine (isfile_iff_mem _ _).mpr ?_
                rw [hP, moveAll_append, moveAll]
                exact moveAll_keep E _ _ (mem_fsMove_self _ _ _) hEb
              rw [if_pos hon, hsg g.id, hs]
              dsimp only
              have hs1 : same_name_indexing (moveAll P fs) s
                  (pjoin F (s ++ (splitext g.filepath).2)) F [] = s :=
                sni_self (moveAll P fs) F s ((splitext g.filepath).2) hgood hnosl hsp
              rw [hs1]
              have hs2 : (splitext (pjoin F (s ++ (splitext g.filepath).2))).2 =
                  (splitext g.filepath).2 := by
                rw [splitext_snd_pjoin hgood hnosl, hsp]
              rw [hs2]
              rw [if_neg (not_not_intro rfl)]
              exact IH.1
            · intro g' hg'
              rcases List.mem_cons.mp hg' with rfl | hg2
              · refine .inr ?_
                rw [hch]
                exact dirname_pjoin hgood hnosl
              · exact IH.2 g' hg2
      · rw [previewLoop, if_neg hisf] at h
        rw [cleanPlan, if_neg hisf] at hcp
        obtain ⟨E, hP, hE⟩ := previewLoop_ok_prefix db fs vid niv F rest acc P h
        have hbef : ∀ e ∈ P, e.before ≠ g.filepath := by
          intro e he
          rw [hP] at he
          rcases List.mem_append.mp he with h1 | h2
          · exact hacc e h1 g (by simp)
          · obtain ⟨g', hg', hb, _⟩ := hE e h2
            rw [hb]
            exact Ne.symm (hneq g' hg')
        have hch : chainUpdPath P g.filepath = g.filepath :=
          chainUpdPath_no_match P g.filepath hbef
        have IH := previewLoop_idem_aux db db' fs vid niv F P hgood hsg H4 rest acc
          (fun g' hg' => hsub g' (by simp [hg'])) hnd'
          (fun x hx g' hg' => hacc x hx g' (by simp [hg'])) h hcp
        refine ⟨?_, ?_⟩
        · rw [List.map_cons, previewLoop]
          dsimp only
          rw [hch]
          have hnf : ¬isfile (moveAll P fs) g.filepath = true := by
            intro hmem
            rcases mem_moveAll_files P fs g.filepath
                ((isfile_iff_mem _ _).mp hmem) with h1 | ⟨e, heP, hea⟩
            · exact hisf ((isfile_iff_mem _ _).mpr h1)
            · exact H4 e heP g (hsub g (by simp)) hea
          rw [if_neg hnf]
          exact IH.1
        · intro g' hg'
          rcases List.mem_cons.mp hg' with rfl | hg2
          · exact .inl hch
          · exact IH.2 g' hg2

/-! ### The volume-folder update step takes one of two shapes -/

theorem volFolderStep_cases (st : SysState) (vid : Nat) (iid : Option Nat)
    (P : List RenameEntry) :
    volFolderStep st vid iid P = st ∨
    ∃ fol, volFolderStep st vid iid P = ⟨updVolumeFolder st.db vid fol, st.fs⟩ := by
  cases P with
  | nil => exact .inl rfl
  | cons r0 rs =>
    simp only [volFolderStep]
    by_cases ht : pyTruthyNat iid = true
    · rw [if_pos ht]
      exact .inl rfl
    · rw [if_neg ht]
      exact .inr ⟨dirname r0.after, rfl⟩

/-! ### Name generation and folder resolution never read the files table -/

theorem suggestedNameFor_files_irrel (v : List Volume) (i : List Issue)
    (f1 f2 : List DBFile) (l : List (Nat × Nat)) (r : List RootFolder) (c : Config)
    (vid niv fid : Nat) :
    suggestedNameFor ⟨v, i, f1, l, r, c⟩ vid niv fid =
      suggestedNameFor ⟨v, i, f2, l, r, c⟩ vid niv fid := rfl

theorem rootFolderOf_files_irrel (v : List Volume) (i : List Issue)
    (f1 f2 : List DBFile) (l : List (Nat × Nat)) (r : List RootFolder) (c : Config)
    (vid : Nat) :
    rootFolderOf ⟨v, i, f1, l, r, c⟩ vid = rootFolderOf ⟨v, i, f2, l, r, c⟩ vid := rfl

theorem generate_volume_folder_name_files_irrel (v : List Volume) (i : List Issue)
    (f1 f2 : List DBFile) (l : List (Nat × Nat)) (r : List RootFolder) (c : Config)
    (vid : Nat) :
    generate_volume_folder_name ⟨v, i, f1, l, r, c⟩ vid =
      generate_volume_folder_name ⟨v, i, f2, l, r, c⟩ vid := rfl

/-! ### The second preview over the applied state -/

theorem preview_after_clean_apply (db : DB) (fs : FS) (vid : Nat) (iid : Option Nat)
    (P : List RenameEntry) (db2 : DB)
    (hdb2 : ∃ V', db2 = ⟨V', db.issues,
        db.files.map (fun g => ⟨g.id, chainUpdPath P g.filepath⟩),
        db.links, db.root_folders, db.config⟩ ∧
      (V' = db.volumes ∨ ∃ fol, V' = (updVolumeFolder db vid fol).volumes))
    (hp : preview_mass_rename db fs vid iid = .ok P)
    (hclean : cleanRun db fs vid iid = true)
    (hnodup : (db.files.map DBFile.filepath).Nodup)
    (hdisj : ∀ e ∈ P, ∀ g ∈ db.files, e.after ≠ g.filepath) :
    preview_mass_rename db2 (moveAll P fs) vid iid = .ok [] := by
  obtain ⟨V', rfl, hV⟩ := hdb2
  have hsg : ∀ niv fid, suggestedNameFor (⟨V', db.issues,
      db.files.map (fun g => ⟨g.id, chainUpdPath P g.filepath⟩),
      db.links, db.root_folders, db.config⟩ : DB) vid niv fid =
      suggestedNameFor db vid niv fid := by
    intro niv fid
    rcases hV with rfl | ⟨fol, rfl⟩
    · exact suggestedNameFor_files_irrel db.volumes db.issues _ db.files
        db.links db.root_folders db.config vid niv fid
    · exact (suggestedNameFor_updVolumeFolder
        ⟨db.volumes, db.issues,
          db.files.map (fun g => ⟨g.id, chainUpdPath P g.filepath⟩),
          db.links, db.root_folders, db.config⟩ vid fol vid niv fid).trans
        (suggestedNameFor_files_irrel db.volumes db.issues _ db.files
          db.links db.root_folders db.config vid niv fid)
  have hroot : rootFolderOf (⟨V', db.issues,
      db.files.map (fun g => ⟨g.id, chainUpdPath P g.filepath⟩),
      db.links, db.root_folders, db.config⟩ : DB) vid = rootFolderOf db vid := by
    rcases hV with rfl | ⟨fol, rfl⟩
    · exact rootFolderOf_files_irrel db.volumes db.issues _ db.files
        db.links db.root_folders db.config vid
    · exact (rootFolderOf_updVolumeFolder
        ⟨db.volumes, db.issues,
          db.files.map (fun g => ⟨g.id, chainUpdPath P g.filepath⟩),
          db.links, db.root_folders, db.config⟩ vid fol vid).trans
        (rootFolderOf_files_irrel db.volumes db.issues _ db.files
          db.links db.root_folders db.config vid)
  have hvnm : generate_volume_folder_name (⟨V', db.issues,
      db.files.map (fun g => ⟨g.id, chainUpdPath P g.filepath⟩),
      db.links, db.root_folders, db.config⟩ : DB) vid =
      generate_volume_folder_name db vid := by
    rcases hV with rfl | ⟨fol, rfl⟩
    · exact generate_volume_folder_name_files_irrel db.volumes db.issues _ db.files
        db.links db.root_folders db.config vid
    · exact (generate_volume_folder_name_updVolumeFolder
        ⟨db.volumes, db.issues,
          db.files.map (fun g => ⟨g.id, chainUpdPath P g.filepath⟩),
          db.links, db.root_folders, db.config⟩ vid fol vid).trans
        (generate_volume_folder_name_files_irrel db.volumes db.issues _ db.files
          db.links db.root_folders db.config vid)
  have hniv : issuesInVolume (⟨V', db.issues,
      db.files.map (fun g => ⟨g.id, chainUpdPath P g.filepath⟩),
      db.links, db.root_folders, db.config⟩ : DB) vid = issuesInVolume db vid := rfl
  cases iid with
  | none =>
    simp only [preview_mass_rename] at hp ⊢
    rw [cleanRun] at hclean
    rw [hroot]
    cases hrf : rootFolderOf db vid with
    | none =>
        rw [hrf] at hp
        dsimp only at hp
        exact Except.noConfusion hp
    | some rf =>
      rw [hrf] at hp hclean
      dsimp only at hp hclean ⊢
      rw [hvnm]
      cases hvn1 : generate_volume_folder_name db vid with
      | error e0 =>
          rw [hvn1] at hp
          dsimp only at hp
          exact Except.noConfusion hp
      | ok vname =>
        rw [hvn1] at hp hclean
        dsimp only at hp hclean ⊢
        obtain ⟨hgood, hcp⟩ := by rw [Bool.and_eq_true] at hclean; exact hclean
        have hfv : filesOfVolume (⟨V', db.issues,
            db.files.map (fun g => ⟨g.id, chainUpdPath P g.filepath⟩),
            db.links, db.root_folders, db.config⟩ : DB) vid =
            (filesOfVolume db vid).map (fun g => ⟨g.id, chainUpdPath P g.filepath⟩) :=
          filesOfVolume_map_files db V' (fun g => chainUpdPath P g.filepath) vid
        rw [hniv, hfv]
        exact (previewLoop_idem_aux db _ fs vid (issuesInVolume db vid)
          (pjoin rf vname) P hgood (fun fid => hsg (issuesInVolume db vid) fid) hdisj
          (filesOfVolume db vid) []
          (fun g hg => mem_filesOfVolume_sub hg)
          (nodup_paths_filter _ _ hnodup)
          (fun x hx => absurd hx (List.not_mem_nil x))
          hp hcp).1
  | some i =>
    simp only [preview_mass_rename] at hp ⊢
    rw [cleanRun] at hclean
    have hfi : filesOfIssue (⟨V', db.issues,
        db.files.map (fun g => ⟨g.id, chainUpdPath P g.filepath⟩),
        db.links, db.root_folders, db.config⟩ : DB) i =
        (filesOfIssue db i).map (fun g => ⟨g.id, chainUpdPath P g.filepath⟩) :=
      filesOfIssue_map_files db V' (fun g => chainUpdPath P g.filepath) i
    rw [hfi]
    cases hfi0 : filesOfIssue db i with
    | nil =>
        rw [hfi0] at hp
        dsimp only at hp
        exact Except.noConfusion hp
    | cons f0 rest =>
      rw [hfi0] at hp hclean
      dsimp only at hp hclean
      rw [List.map_cons]
      dsimp only
      obtain ⟨hgood, hcp⟩ := by rw [Bool.and_eq_true] at hclean; exact hclean
      have hsub : ∀ g ∈ f0 :: rest, g ∈ db.files := by
        intro g hg
        have hg2 : g ∈ filesOfIssue db i := by
          rw [hfi0]
          exact hg
        exact mem_filesOfIssue_sub hg2
      have hnd : ((f0 :: rest).map DBFile.filepath).Nodup := by
        have h1 : ((filesOfIssue db i).map DBFile.filepath).Nodup :=
          nodup_paths_filter _ _ hnodup
        rw [hfi0] at h1
        exact h1
      have AUX := previewLoop_idem_aux db _ fs vid (issuesInVolume db vid)
        (dirname f0.filepath) P hgood (fun fid => hsg (issuesInVolume db vid) fid) hdisj
        (f0 :: rest) [] hsub hnd (fun x hx => absurd hx (List.not_mem_nil x)) hp hcp
      have hF2 : dirname (chainUpdPath P f0.filepath) = dirname f0.filepath := by
        rcases AUX.2 f0 (by simp) with h1 | h1
        · rw [h1]
        · exact h1
      rw [hF2]
      exact AUX.1

/-- C5 (amended): the claimed unconditional preview-after-apply emptiness is
false (see the counterexample, where a collision suffix assigned against the
pre-move disk state leaves a follow-up rename); idempotence does hold for
every clean run.  For every state, scope and plan: if the first preview
returns the plan, the run is clean (`cleanRun`: the destination folder
resolves and is well formed, and every on-disk candidate keeps its generated
name — no disambiguation suffix, a stable name/extension split, no separator
in the joined component), the stored file paths are pairwise distinct, and no
planned target path equals any stored file path, then `mass_rename` succeeds
and the immediately following `preview_mass_rename` on the same scope returns
the empty plan. -/
theorem claim_C5_rename_idempotence (st : SysState) (vid : Nat) (iid : Option Nat)
    (P : List RenameEntry)
    (hp : preview_mass_rename st.db st.fs vid iid = .ok P)
    (hclean : cleanRun st.db st.fs vid iid = true)
    (hnodup : (st.db.files.map DBFile.filepath).Nodup)
    (hdisj : ∀ e ∈ P, ∀ g ∈ st.db.files, e.after ≠ g.filepath) :
    (mass_rename [] st vid iid).2 = none ∧
    preview_mass_rename (mass_rename [] st vid iid).1.db
      (mass_rename [] st vid iid).1.fs vid iid = .ok [] := by
  have hmr : mass_rename [] st vid iid =
      (applyAll P (volFolderStep st vid iid P), none) := by
    rw [mass_rename, hp]
    dsimp only
    exact applyRenames_none P _
  rw [hmr]
  refine ⟨rfl, ?_⟩
  rw [applyAll_char]
  dsimp only
  rw [volFolderStep_fs]
  rcases volFolderStep_cases st vid iid P with hvf | ⟨fol, hvf⟩
  · rw [hvf]
    exact preview_after_clean_apply st.db st.fs vid iid P _
      ⟨st.db.volumes, rfl, .inl rfl⟩ hp hclean hnodup hdisj
  · rw [hvf]
    dsimp only
    exact preview_after_clean_apply st.db st.fs vid iid P _
      ⟨(updVolumeFolder st.db vid fol).volumes, rfl, .inr ⟨fol, rfl⟩⟩
      hp hclean hnodup hdisj

/-- C5 counterexample: on `dbSwap` (the file at `Foo.cbz` is to be called
`Bar`, the file at `Baz.cbz` is to be called `Foo`) the whole-volume apply
run succeeds — `Baz.cbz` gets the suffixed name `Foo (1).cbz` because
`Foo.cbz` was still on disk when it was planned — yet the immediately
following preview on the same scope is not empty: it plans
`Foo (1).cbz` → `Foo.cbz`. -/
theorem claim_C5_counterexample :
    preview_mass_rename dbSwap fsSwap 1 none =
      .ok [⟨"/r/T/Foo.cbz", "/r/T/Bar.cbz"⟩, ⟨"/r/T/Baz.cbz", "/r/T/Foo (1).cbz"⟩] ∧
    (mass_rename [] ⟨dbSwap, fsSwap⟩ 1 none).2 = none ∧
    preview_mass_rename (mass_rename [] ⟨dbSwap, fsSwap⟩ 1 none).1.db
      (mass_rename [] ⟨dbSwap, fsSwap⟩ 1 none).1.fs 1 none =
      .ok [⟨"/r/T/Foo (1).cbz", "/r/T/Foo.cbz"⟩] :=
  ⟨by decide, by decide, by decide⟩

/-- Witness for the amended C5 at a concrete clean state: three files
renaming to three fresh names; every hypothesis holds by computation and the
apply run is idempotent. -/
theorem claim_C5_rename_idempotence_witness :
    (preview_mass_rename dbTriple fsTriple 1 none =
      .ok [⟨"/r/T/x1.cbz", "/r/T/A1.cbz"⟩, ⟨"/r/T/x2.cbz", "/r/T/A2.cbz"⟩,
        ⟨"/r/T/x3.cbz", "/r/T/A3.cbz"⟩]) ∧
    cleanRun dbTriple fsTriple 1 none = true ∧
    (dbTriple.files.map DBFile.filepath).Nodup ∧
    (∀ e ∈ [(⟨"/r/T/x1.cbz", "/r/T/A1.cbz"⟩ : RenameEntry),
        ⟨"/r/T/x2.cbz", "/r/T/A2.cbz"⟩, ⟨"/r/T/x3.cbz", "/r/T/A3.cbz"⟩],
      ∀ g ∈ dbTriple.files, e.after ≠ g.filepath) ∧
    ((mass_rename [] ⟨dbTriple, fsTriple⟩ 1 none).2 = none ∧
      preview_mass_rename (mass_rename [] ⟨dbTriple, fsTriple⟩ 1 none).1.db
        (mass_rename [] ⟨dbTriple, fsTriple⟩ 1 none).1.fs 1 none = .ok []) :=
  ⟨by decide, by decide, by decide, by decide,
    claim_C5_rename_idempotence ⟨dbTriple, fsTriple⟩ 1 none
      [⟨"/r/T/x1.cbz", "/r/T/A1.cbz"⟩, ⟨"/r/T/x2.cbz", "/r/T/A2.cbz"⟩,
        ⟨"/r/T/x3.cbz", "/r/T/A3.cbz"⟩]
      (by decide) (by decide) (by decide) (by decide)⟩
